import Mathlib

/-!
# Verification of the resource-property diff renderer

This file gives a shallow embedding, in Lean 4, of the diff-rendering engine
in `pkg/engine/diff.go` (the recursive renderer that turns a pre-computed
structural diff of a resource's property tree into colorized, indented text),
and proves the specification claims about it.

Modelling conventions:

* Go strings are modelled as Lean `String`.  The engine only slices and
  measures ASCII data (hashes, four-space indents, two-character glyphs,
  property keys), where Go's byte-based `len`/slicing and Lean's
  character-based `String.length`/`String.take` agree.
* Go maps (`resource.PropertyMap`, archive entry maps, the diff maps) are
  modelled as association lists `List (Key × Value)`; the source always
  sorts the key set before iterating, which we model by sorting the
  association list by key.  Keys are unique (Go map invariant).
* The output buffer `bytes.Buffer` is modelled as a `List Chunk`.  Each
  `writeWithIndent`/`write`/`writeVerbatim` call in the source appends one
  `Chunk.styled op indent pfx text` (the source renders such a chunk as
  `op.Color() ++ getIndentationString indent op pfx ++ text ++ colors.Reset`);
  a bare `buff.WriteString` appends `Chunk.raw`.  Concatenating the rendered
  chunks recovers the exact buffer contents, so statements about emitted
  chunks are statements about the produced text.
* Functions that can hit a `contract.Assert` failure or a failing Go type
  assertion return `Option` (`none` = panic); functions on which no assert
  can fire (given the exhaustive tagged unions of the data model) are total.
* External collaborators that the spec declares out of scope (the structural
  diff computation `PropertyMap.Diff`, the line differ `diffmatchpatch`, and
  `resource.MassageIfUserProgramCodeAsset`) are section parameters; nothing
  proved below depends on their behaviour.
-/

set_option linter.unusedVariables false
set_option linter.unusedTactic false

namespace PulumiDiff

/-- Operation tags of deployment steps (`deploy.StepOp`), as enumerated by the
spec's data model (§3). -/
inductive StepOp
  | same
  | create
  | delete
  | update
  | replace
  | createReplacement
  | deleteReplaced
deriving DecidableEq, Repr

/-- Modelled from the spec: `deploy.StepOp.RawPrefix` lives in the external
`pkg/resource/deploy` package, which is not part of the given source.  The
spec (§3) states that every operation tag is bound to an exactly-2-character
prefix glyph. -/
def StepOp.glyph : StepOp → String
  | .same => "  "
  | .create => "+ "
  | .delete => "- "
  | .update => "~ "
  | .replace => "+-"
  | .createReplacement => "++"
  | .deleteReplaced => "--"

/-- One write into the output buffer.  `styled op indent pfx text` stands for
the text emitted by `writeWithIndent(b, indent, op, pfx, text)` (color marker,
indentation with optional glyph, text, reset marker); `raw` stands for a bare
`WriteString`. -/
inductive Chunk
  | styled (op : StepOp) (indent : Nat) (pfx : Bool) (text : String)
  | raw (text : String)
deriving DecidableEq, Repr

/-- Assets (`resource.Asset`): text, file, or URI content plus a hash. -/
inductive Asset
  | text (content hash : String)
  | file (path hash : String)
  | uri (u hash : String)
deriving DecidableEq, Repr

/-- Archives (`resource.Archive`): a named map of assets/sub-archives, a file
path, or a URI, plus a hash.  Entry values (`Asset ⊕ Archive`) model the Go
`map[string]interface{}` holding `*Asset` or `*Archive`. -/
inductive Archive
  | assets (entries : List (String × (Asset ⊕ Archive))) (hash : String)
  | file (path hash : String)
  | uri (u hash : String)

/-- Property values (`resource.PropertyValue`): the tagged union from the
spec's data model (§3).  `computed`/`outputV` carry the string produced by the
external `TypeString()` accessor (the renderer only ever prints it). -/
inductive PropertyValue
  | null
  | boolV (b : Bool)
  | number (lit : String)
  | stringV (s : String)
  | array (elems : List PropertyValue)
  | object (entries : List (String × PropertyValue))
  | assetV (a : Asset)
  | archiveV (a : Archive)
  | computed (typeStr : String)
  | outputV (typeStr : String)

/-- Hash accessor (`Archive.Hash`). -/
def Archive.hash : Archive → String
  | .assets _ h => h
  | .file _ h => h
  | .uri _ h => h

/-- Hash accessor (`Asset.Hash`). -/
def Asset.hash : Asset → String
  | .text _ h => h
  | .file _ h => h
  | .uri _ h => h

/-- Text accessor (`Asset.Text`; empty for non-text assets, matching the Go
zero value of the unset struct field). -/
def Asset.textStr : Asset → String
  | .text c _ => c
  | _ => ""

/-- Discriminator `PropertyValue.IsNull`. -/
def PropertyValue.isNull : PropertyValue → Bool
  | .null => true
  | _ => false

/-- Discriminator `PropertyValue.IsString`. -/
def PropertyValue.isStringV : PropertyValue → Bool
  | .stringV _ => true
  | _ => false

/-- Accessor `PropertyValue.StringValue` (zero value for other variants). -/
def PropertyValue.stringValue : PropertyValue → String
  | .stringV s => s
  | _ => ""

/-- Discriminator `PropertyValue.IsArray`. -/
def PropertyValue.isArray : PropertyValue → Bool
  | .array _ => true
  | _ => false

/-- Accessor `PropertyValue.ArrayValue`. -/
def PropertyValue.arrayValue : PropertyValue → List PropertyValue
  | .array xs => xs
  | _ => []

/-- Discriminator `PropertyValue.IsObject`. -/
def PropertyValue.isObject : PropertyValue → Bool
  | .object _ => true
  | _ => false

/-- Accessor `PropertyValue.ObjectValue`. -/
def PropertyValue.objectValue : PropertyValue → List (String × PropertyValue)
  | .object m => m
  | _ => []

/-- Discriminator `PropertyValue.IsOutput`. -/
def PropertyValue.isOutputV : PropertyValue → Bool
  | .outputV _ => true
  | _ => false

/-- Discriminator `PropertyValue.IsArchive`. -/
def PropertyValue.isArchiveV : PropertyValue → Bool
  | .archiveV _ => true
  | _ => false

/-- Accessor `PropertyValue.ArchiveValue` (only used under an `IsArchive`
guard; the default value is never reached in guarded positions). -/
def PropertyValue.archiveValue : PropertyValue → Archive
  | .archiveV a => a
  | _ => .file "" ""

/-- The four-space-per-level indentation accumulated by the
`for i := 0; i < indent; i++ { result += "    " }` loop in
`getIndentationString`. -/
def indentSpaces : Nat → String
  | 0 => ""
  | n + 1 => indentSpaces n ++ "    "

/-- A string of `n` spaces (used to state properties of the indentation). -/
def spaces (n : Nat) : String := String.mk (List.replicate n ' ')

/-- Character-list splitting on a separator, keeping empty segments: the
structural model of the external Go `strings.Split` with a one-character
separator. -/
def splitChars (sep : Char) : List Char → List (List Char)
  | [] => [[]]
  | c :: rest =>
    match splitChars sep rest with
    | [] => [[]]
    | g :: gs => if c = sep then [] :: g :: gs else (c :: g) :: gs

/-- Model of `strings.Split(s, "\n")`: the lines of `s`, empty lines
included. -/
def splitLines (s : String) : List String := (splitChars '\n' s.data).map String.mk

/-- Embedding of `getIndentationString(indent, op, prefix)` (diff.go:52-72).
`none` models a `contract.Assert` failure.  Go's byte slicing
`result[:len(result)-2]` is modelled on the character list (ASCII data). -/
def getIndentationString (indent : Nat) (op : StepOp) (pfx : Bool) : Option String :=
  let result := indentSpaces indent
  if result = "" then
    if pfx then none else some result
  else
    let rp := if pfx then op.glyph else "  "
    if rp.length = 2 ∧ 2 ≤ result.length then
      some (String.mk (result.data.take (result.data.length - 2)) ++ rp)
    else
      none

/-- Embedding of `shortHash(hash)` (diff.go:383-388). -/
def shortHash (hash : String) : String :=
  if hash.length > 7 then hash.take 7 else hash

/-- Embedding of `getTextChangeString(old, new)` (diff.go:764-770). -/
def getTextChangeString (old : String) (new : String) : String :=
  if old = new then old else old ++ "->" ++ new

/-- Embedding of `shouldPrintPropertyValue(v, outs)` (diff.go:247-268),
including the duplicated empty-object check of the source. -/
def shouldPrintPropertyValue (v : PropertyValue) (outs : Bool) : Bool :=
  if v.isNull then false
  else if v.isStringV && v.stringValue == "" then false
  else if v.isArray && v.arrayValue.length == 0 then false
  else if v.isObject && v.objectValue.length == 0 then false
  else if v.isObject && v.objectValue.length == 0 then false
  else if v.isOutputV && !outs then false
  else true

/-- Embedding of `maxKey(keys)` (diff.go:165-173). -/
def maxKey (keys : List String) : Nat :=
  keys.foldl (fun m k => if k.length > m then k.length else m) 0

/-- Pad a key with spaces on the right up to the alignment width: the
`"%-<align>s"` format verb used by `printPropertyTitle`. -/
def padKey (name : String) (align : Nat) : String :=
  name ++ spaces (align - name.length)

/-- Embedding of `printPropertyTitle(b, name, align, indent, op, prefix)`
(diff.go:270-272): one aligned `name: ` chunk. -/
def printPropertyTitle (name : String) (align indent : Nat) (op : StepOp) (pfx : Bool) : Chunk :=
  .styled op indent pfx (padKey name align ++ ": ")

/-- The title closures (`titleFunc`) passed through the renderer each produce
exactly one chunk. -/
abbrev TitleFn := StepOp → Bool → Chunk

/-- Insertion step of the key sort used to model `sort.Strings` /
`StableKeys` over association lists. -/
def insertSorted {α : Type} (x : String × α) : List (String × α) → List (String × α)
  | [] => [x]
  | y :: ys => if x.1 < y.1 ∨ x.1 = y.1 then x :: y :: ys else y :: insertSorted x ys

/-- Sort an association list by key (models iterating a Go map in sorted key
order, as the source always does). -/
def sortByKey {α : Type} : List (String × α) → List (String × α)
  | [] => []
  | x :: xs => insertSorted x (sortByKey xs)

theorem sizeOf_insertSorted {α : Type} [SizeOf α] (x : String × α) (l : List (String × α)) :
    sizeOf (insertSorted x l) = sizeOf (x :: l) := by
  induction l with
  | nil => rfl
  | cons y ys ih =>
    simp only [insertSorted]
    split
    · rfl
    · simp only [List.cons.sizeOf_spec] at *
      omega

theorem sizeOf_sortByKey {α : Type} [SizeOf α] (l : List (String × α)) :
    sizeOf (sortByKey l) = sizeOf l := by
  induction l with
  | nil => rfl
  | cons x xs ih =>
    simp only [sortByKey, sizeOf_insertSorted, List.cons.sizeOf_spec]
    omega

theorem mem_insertSorted {α : Type} {x y : String × α} :
    ∀ {l : List (String × α)}, y ∈ insertSorted x l → y = x ∨ y ∈ l
  | [], h => by
    rw [insertSorted] at h
    simp at h
    exact Or.inl h
  | z :: zs, h => by
    rw [insertSorted] at h
    by_cases hc : x.1 < z.1 ∨ x.1 = z.1
    · rw [if_pos hc] at h
      rcases List.mem_cons.mp h with h' | h'
      · exact Or.inl h'
      · exact Or.inr h'
    · rw [if_neg hc] at h
      rcases List.mem_cons.mp h with h' | h'
      · exact Or.inr (List.mem_cons.mpr (Or.inl h'))
      · rcases mem_insertSorted h' with h'' | h''
        · exact Or.inl h''
        · exact Or.inr (List.mem_cons.mpr (Or.inr h''))

theorem mem_sortByKey {α : Type} {y : String × α} :
    ∀ {l : List (String × α)}, y ∈ sortByKey l → y ∈ l
  | [], h => by
    rw [sortByKey] at h
    simp at h
  | x :: xs, h => by
    rw [sortByKey] at h
    rcases mem_insertSorted h with h' | h'
    · exact List.mem_cons.mpr (Or.inl h')
    · exact List.mem_cons.mpr (Or.inr (mem_sortByKey h'))

theorem sizeOf_lookup_lt {κ α : Type} [BEq κ] [SizeOf κ] [SizeOf α]
    {l : List (κ × α)} {k : κ} {v : α} (h : List.lookup k l = some v) :
    sizeOf v < sizeOf l := by
  induction l with
  | nil => simp [List.lookup] at h
  | cons p rest ih =>
    obtain ⟨k', v'⟩ := p
    rw [List.lookup] at h
    by_cases hk : (k == k') = true
    · simp [hk] at h
      subst h
      simp only [List.cons.sizeOf_spec, Prod.mk.sizeOf_spec]
      omega
    · simp [hk] at h
      have := ih h
      simp only [List.cons.sizeOf_spec]
      omega

/-- Embedding of `assetOrArchiveToPropertyValue(v)` (diff.go:371-381).  The
`contract.Failf` default branch is unreachable in the model: archive entries
are exactly assets or archives. -/
def assetOrArchiveToPropertyValue : Asset ⊕ Archive → PropertyValue
  | .inl a => .assetV a
  | .inr a => .archiveV a

theorem sizeOf_assetOrArchiveToPropertyValue (e : Asset ⊕ Archive) :
    sizeOf (assetOrArchiveToPropertyValue e) = sizeOf e := by
  cases e <;> simp [assetOrArchiveToPropertyValue]

section Renderer

/- The external `resource.MassageIfUserProgramCodeAsset` (spec §4.2: in
non-debug mode, known source-code payloads are replaced with a placeholder
before printing).  It is out-of-scope external code, taken as a parameter;
nothing proved here depends on it. -/
variable (massage : Asset → Bool → Asset)

mutual

/-- Embedding of `printPropertyValue(b, v, planning, indent, op, prefix,
debug)` (diff.go:274-362).  Every branch appends its chunks exactly as the
source writes them, followed by the final newline write of line 361. -/
def printPropertyValue (v : PropertyValue) (planning : Bool) (indent : Nat)
    (op : StepOp) (pfx : Bool) (debug : Bool) : List Chunk :=
  (match v with
   | .null => [Chunk.styled op 0 false "<null>"]
   | .boolV b => [Chunk.styled op 0 false (toString b)]
   | .number lit => [Chunk.styled op 0 false lit]
   | .stringV s => [Chunk.styled op 0 false ("\"" ++ s ++ "\"")]
   | .array arr =>
     if arr.length = 0 then [Chunk.styled op 0 false "[]"]
     else
       Chunk.styled op 0 false "[\n" ::
       printArrayElems arr 0 planning indent op pfx debug ++
       [Chunk.styled op indent false "]"]
   | .assetV a =>
     match a with
     | .text content h =>
       Chunk.styled op 0 false ("asset(text:" ++ shortHash h ++ ") \x7b\n") ::
       ((splitLines ((massage (Asset.text content h) debug).textStr)).map
         (fun line => Chunk.styled op indent false ("    " ++ line ++ "\n"))) ++
       [Chunk.styled op indent false "\x7d"]
     | .file path h =>
       [Chunk.styled op 0 false ("asset(file:" ++ shortHash h ++ ") \x7b " ++ path ++ " \x7d")]
     | .uri u h =>
       [Chunk.styled op 0 false ("asset(uri:" ++ shortHash h ++ ") \x7b " ++ u ++ " \x7d")]
   | .archiveV a =>
     match a with
     | .assets entries h =>
       Chunk.styled op 0 false ("archive(assets:" ++ shortHash h ++ ") \x7b\n") ::
       printArchiveEntries (sortByKey entries) planning indent op pfx debug ++
       [Chunk.styled op indent false "\x7d"]
     | .file path h =>
       [Chunk.styled op 0 false ("archive(file:" ++ shortHash h ++ ") \x7b " ++ path ++ " \x7d")]
     | .uri u h =>
       [Chunk.styled op 0 false ("archive(uri:" ++ shortHash h ++ ") \x7b " ++ u ++ " \x7d")]
   | .computed ts =>
     if planning then [Chunk.styled op 0 false ts] else [Chunk.styled op 0 false "undefined"]
   | .outputV ts =>
     if planning then [Chunk.styled op 0 false ts] else [Chunk.styled op 0 false "undefined"]
   | .object obj =>
     if obj.length = 0 then [Chunk.styled op 0 false "\x7b\x7d"]
     else
       Chunk.styled op 0 false "\x7b\n" ::
       printObject obj planning (indent + 1) op pfx debug ++
       [Chunk.styled op indent false "\x7d"]) ++
  [Chunk.styled op 0 false "\n"]
termination_by 2 * sizeOf v
decreasing_by all_goals (simp [sizeOf_sortByKey, sizeOf_assetOrArchiveToPropertyValue]; try omega)

/-- Embedding of `printObject(b, props, planning, indent, op, prefix, debug)`
(diff.go:175-190): compute the aligned key width over all (sorted) keys, then
print each printable entry in sorted key order. -/
def printObject (props : List (String × PropertyValue)) (planning : Bool)
    (indent : Nat) (op : StepOp) (pfx : Bool) (debug : Bool) : List Chunk :=
  printObjectEntries (sortByKey props) (maxKey ((sortByKey props).map Prod.fst))
    planning indent op pfx debug
termination_by 2 * sizeOf props + 1
decreasing_by all_goals (simp [sizeOf_sortByKey, sizeOf_assetOrArchiveToPropertyValue]; try omega)

/-- The key loop of `printObject` (diff.go:184-189). -/
def printObjectEntries (entries : List (String × PropertyValue)) (maxkey : Nat)
    (planning : Bool) (indent : Nat) (op : StepOp) (pfx : Bool) (debug : Bool) : List Chunk :=
  match entries with
  | [] => []
  | (k, v) :: rest =>
    (if shouldPrintPropertyValue v planning then
       printPropertyTitle k maxkey indent op pfx ::
       printPropertyValue v planning indent op pfx debug
     else []) ++
    printObjectEntries rest maxkey planning indent op pfx debug
termination_by 2 * sizeOf entries
decreasing_by all_goals (simp [sizeOf_sortByKey, sizeOf_assetOrArchiveToPropertyValue]; try omega)

/-- The element loop of `printPropertyValue`'s array branch
(diff.go:292-295). -/
def printArrayElems (elems : List PropertyValue) (i : Nat) (planning : Bool)
    (indent : Nat) (op : StepOp) (pfx : Bool) (debug : Bool) : List Chunk :=
  match elems with
  | [] => []
  | e :: rest =>
    Chunk.styled op indent pfx ("    [" ++ toString i ++ "]: ") ::
    printPropertyValue e planning (indent + 1) op pfx debug ++
    printArrayElems rest (i + 1) planning indent op pfx debug
termination_by 2 * sizeOf elems
decreasing_by all_goals (simp [sizeOf_sortByKey, sizeOf_assetOrArchiveToPropertyValue]; try omega)

/-- The sorted-entry loop of `printPropertyValue`'s archive branch
(diff.go:323-330), with `printAssetOrArchive` (diff.go:364-369) inlined as the
title write plus the recursive value print. -/
def printArchiveEntries (entries : List (String × (Asset ⊕ Archive)))
    (planning : Bool) (indent : Nat) (op : StepOp) (pfx : Bool) (debug : Bool) : List Chunk :=
  match entries with
  | [] => []
  | (name, e) :: rest =>
    Chunk.styled op indent pfx ("    \"" ++ name ++ "\": ") ::
    printPropertyValue (assetOrArchiveToPropertyValue e) planning (indent + 1) op pfx debug ++
    printArchiveEntries rest planning indent op pfx debug
termination_by 2 * sizeOf entries
decreasing_by all_goals (simp [sizeOf_sortByKey, sizeOf_assetOrArchiveToPropertyValue]; try omega)

end

/-- Embedding of `printDelete(b, v, title, planning, indent, debug)`
(diff.go:512-518). -/
def printDelete (v : PropertyValue) (title : TitleFn) (planning : Bool)
    (indent : Nat) (debug : Bool) : List Chunk :=
  title .delete true :: printPropertyValue massage v planning indent .delete true debug

/-- Embedding of `printAdd(b, v, title, planning, indent, debug)`
(diff.go:520-526). -/
def printAdd (v : PropertyValue) (title : TitleFn) (planning : Bool)
    (indent : Nat) (debug : Bool) : List Chunk :=
  title .create true :: printPropertyValue massage v planning indent .create true debug

/-- Run tags of the line diffs produced by the external `diffmatchpatch`
pipeline (`DiffInsert`, `DiffDelete`, `DiffEqual`). -/
inductive DiffType
  | insert
  | delete
  | equal
deriving DecidableEq, Repr

/-- One line-diff run (`diffmatchpatch.Diff`): a tag plus the run's text. -/
structure LineDiff where
  type : DiffType
  text : String
deriving DecidableEq, Repr

/-- Whitespace trimming on the character list: the structural model of Go's
`strings.TrimSpace` (drop leading and trailing whitespace). -/
def trimChars (l : List Char) : List Char :=
  ((l.dropWhile Char.isWhitespace).reverse.dropWhile Char.isWhitespace).reverse

/-- Trim of a string (model of the external `strings.TrimSpace`). -/
def strTrim (s : String) : String := String.mk (trimChars s.data)

/-- The blank-line test used throughout `diffToPrettyString`:
`strings.TrimSpace(line) != ""`. -/
def nonblank (l : String) : Bool := strTrim l != ""

/-- The `writeDiff` closure of `diffToPrettyString` (diff.go:780-786): one
styled chunk whose glyph flag is set exactly for creates and deletes. -/
def writeDiffChunk (op : StepOp) (indent : Nat) (text : String) : Chunk :=
  Chunk.styled op indent (op == StepOp.create || op == StepOp.delete) text

/-- The `printLines` closure of `diffToPrettyString` (diff.go:791-798): emit
`lines[startInclusive..endExclusive)`, skipping blank lines, each line
followed by a raw newline. -/
def printLinesGo (op : StepOp) (indent : Nat) (lines : List String)
    (startInclusive endExclusive : Nat) : List Chunk :=
  ((lines.drop startInclusive).take (endExclusive - startInclusive)).flatMap
    (fun l => if nonblank l then [writeDiffChunk op indent l, Chunk.raw "\n"] else [])

/-- The context budget `C` (`const contextLines = 2`, diff.go:814). -/
def contextLines : Nat := 2

/-- Loop body of `diffToPrettyString` (diff.go:788-841) for the run `d` at
position `index` in a sequence of `n` runs. -/
def runChunks (n : Nat) (indent : Nat) (index : Nat) (d : LineDiff) : List Chunk :=
  let lines := splitLines d.text
  match d.type with
  | .insert => printLinesGo .create indent lines 0 lines.length
  | .delete => printLinesGo .delete indent lines 0 lines.length
  | .equal =>
    let lines := lines.filter nonblank
    if index = 0 then
      if lines.length > contextLines + 1 then
        writeDiffChunk .same indent "...\n" ::
        printLinesGo .same indent lines (lines.length - contextLines) lines.length
      else
        printLinesGo .same indent lines 0 lines.length
    else if index = n - 1 then
      if lines.length > contextLines + 1 then
        printLinesGo .same indent lines 0 contextLines ++ [writeDiffChunk .same indent "...\n"]
      else
        printLinesGo .same indent lines 0 lines.length
    else
      if lines.length > 2 * contextLines + 1 then
        printLinesGo .same indent lines 0 contextLines ++
        [writeDiffChunk .same indent "...\n"] ++
        printLinesGo .same indent lines (lines.length - contextLines) lines.length
      else
        printLinesGo .same indent lines 0 lines.length

/-- Embedding of `diffToPrettyString(diffs, indent)` (diff.go:777-844). -/
def diffToPrettyString (diffs : List LineDiff) (indent : Nat) : List Chunk :=
  diffs.enum.flatMap (fun p => runChunks diffs.length indent p.1 p.2)

/-- Embedding of `makeAssetHeader(asset)` (diff.go:679-695). -/
def makeAssetHeader (a : Asset) : String :=
  match a with
  | .file path h => "asset(file:" ++ shortHash h ++ ") \x7b " ++ path ++ " \x7d\n"
  | .uri u h => "asset(uri:" ++ shortHash h ++ ") \x7b " ++ u ++ " \x7d\n"
  | .text _ h => "asset(text:" ++ shortHash h ++ ") \x7b ... \x7d\n"

/- The external line-diff pipeline of `printAssetDiff` (diff.go:726-731):
`diffmatchpatch` (`DiffLinesToChars`, `DiffMain`, `DiffCharsToLines`), an
out-of-scope collaborator producing the line-diff runs fed to
`diffToPrettyString`; taken as a parameter. -/
variable (lineDiffFn : String → String → List LineDiff)

/-- Embedding of `printAssetDiff(b, titleFunc, oldAsset, newAsset, planning,
indent, summary, debug)` (diff.go:697-762).  Equal hashes give a Same line
(suppressed in summary mode); otherwise matching kinds give the specialized
update rendering and a kind mismatch falls through to delete-then-add. -/
def printAssetDiff (titleF : TitleFn) (oldAsset newAsset : Asset)
    (planning : Bool) (indent : Nat) (summary debug : Bool) : List Chunk :=
  if oldAsset.hash = newAsset.hash then
    if !summary then
      [titleF .same false, Chunk.styled .same 0 false (makeAssetHeader oldAsset)]
    else []
  else
    let hashChange := getTextChangeString (shortHash oldAsset.hash) (shortHash newAsset.hash)
    match oldAsset, newAsset with
    | .text oldContent oldHash, .text newContent newHash =>
      titleF .update true ::
      Chunk.styled .update 0 false ("asset(text:" ++ hashChange ++ ") \x7b\n") ::
      diffToPrettyString
        (lineDiffFn ((massage (Asset.text oldContent oldHash) debug).textStr)
                    ((massage (Asset.text newContent newHash) debug).textStr))
        (indent + 1) ++
      [Chunk.styled .update indent false "\x7d\n"]
    | .file oldPath _, .file newPath _ =>
      [titleF .update true,
       Chunk.styled .update 0 false
         ("asset(file:" ++ hashChange ++ ") \x7b " ++ getTextChangeString oldPath newPath ++ " \x7d\n")]
    | .uri oldURI _, .uri newURI _ =>
      [titleF .update true,
       Chunk.styled .update 0 false
         ("asset(uri:" ++ hashChange ++ ") \x7b " ++ getTextChangeString oldURI newURI ++ " \x7d\n")]
    | _, _ =>
      printDelete massage (assetOrArchiveToPropertyValue (Sum.inl oldAsset)) titleF planning indent debug ++
      printAdd massage (assetOrArchiveToPropertyValue (Sum.inl newAsset)) titleF planning indent debug

mutual

/-- Embedding of `printArchiveDiff(b, titleFunc, oldArchive, newArchive,
planning, indent, summary, debug)` (diff.go:528-572).  Note: faithful to the
source, there is no hash-equality check here (the source's own TODO comment
at diff.go:533-534 records that an unchanged archive is not detected); every
matching-kind pair renders as an Update.  `none` models the Go type-assertion
panic reachable through `printAssetsDiff`. -/
def printArchiveDiff (titleF : TitleFn) (oldArchive newArchive : Archive)
    (planning : Bool) (indent : Nat) (summary debug : Bool) : Option (List Chunk) :=
  let hashChange := getTextChangeString (shortHash oldArchive.hash) (shortHash newArchive.hash)
  match oldArchive, newArchive with
  | .file oldPath _, .file newPath _ =>
    some [titleF .update true,
      Chunk.styled .update 0 false
        ("archive(file:" ++ hashChange ++ ") \x7b " ++ getTextChangeString oldPath newPath ++ " \x7d\n")]
  | .uri oldURI _, .uri newURI _ =>
    some [titleF .update true,
      Chunk.styled .update 0 false
        ("archive(uri:" ++ hashChange ++ ") \x7b " ++ getTextChangeString oldURI newURI ++ " \x7d\n")]
  | .assets oldAssets _, .assets newAssets _ => do
    let inner ← printAssetsDiff oldAssets newAssets planning (indent + 1) summary debug
    pure (titleF .update true ::
      Chunk.styled .update 0 false ("archive(assets:" ++ hashChange ++ ") \x7b\n") ::
      inner ++ [Chunk.styled .update indent false "\x7d\n"])
  | _, _ =>
    some (printDelete massage (assetOrArchiveToPropertyValue (Sum.inr oldArchive)) titleF planning indent debug ++
          printAdd massage (assetOrArchiveToPropertyValue (Sum.inr newArchive)) titleF planning indent debug)
termination_by 2 * (sizeOf oldArchive + sizeOf newArchive) + 2
decreasing_by all_goals (simp [sizeOf_sortByKey]; try omega)

/-- Embedding of `printAssetsDiff(b, oldAssets, newAssets, planning, indent,
summary, debug)` (diff.go:574-610): sort both name lists, compute the aligned
width over all quoted names, and run the two-pointer merge loop. -/
def printAssetsDiff (oldAssets newAssets : List (String × (Asset ⊕ Archive)))
    (planning : Bool) (indent : Nat) (summary debug : Bool) : Option (List Chunk) :=
  let keys := (sortByKey oldAssets).map (fun p => "\"" ++ p.1 ++ "\"") ++
              (sortByKey newAssets).map (fun p => "\"" ++ p.1 ++ "\"")
  assetsDiffLoop (sortByKey oldAssets) (sortByKey newAssets) (maxKey keys)
    planning indent summary debug
termination_by 2 * (sizeOf oldAssets + sizeOf newAssets) + 1
decreasing_by all_goals (simp [sizeOf_sortByKey]; try omega)

/-- The equal-name dispatch of `printAssetsDiff`'s merge loop
(diff.go:619-641): recurse into the archive differ or the asset differ by the
dynamic kind of the old entry; the failing Go type assertion on a kind
mismatch (`newAsset.(*resource.Archive)` / `newAsset.(*resource.Asset)`) is
`none`. -/
def assetsEntryDiff (name : String) (oldAsset newAsset : Asset ⊕ Archive)
    (maxkey : Nat) (planning : Bool) (indent : Nat) (summary debug : Bool) :
    Option (List Chunk) :=
  let titleF : TitleFn := fun top tpfx =>
    printPropertyTitle ("\"" ++ name ++ "\"") maxkey indent top tpfx
  match oldAsset, newAsset with
  | .inr oldArch, .inr newArch =>
    printArchiveDiff titleF oldArch newArch planning indent summary debug
  | .inl oldAst, .inl newAst =>
    some (printAssetDiff massage lineDiffFn titleF oldAst newAst planning indent summary debug)
  | _, _ => none
termination_by 2 * (sizeOf oldAsset + sizeOf newAsset) + 3
decreasing_by all_goals (simp [sizeOf_sortByKey]; try omega)

/-- The two-pointer merge loop of `printAssetsDiff` (diff.go:612-677) over the
sorted entry lists: equal names recurse by dynamic kind (`assetsEntryDiff`),
a smaller old name is a deletion, a smaller new name is an addition. -/
def assetsDiffLoop (olds news : List (String × (Asset ⊕ Archive))) (maxkey : Nat)
    (planning : Bool) (indent : Nat) (summary debug : Bool) : Option (List Chunk) :=
  match olds, news with
  | [], [] => some []
  | (oldName, oldAsset) :: orest, (newName, newAsset) :: nrest =>
    if oldName = newName then do
      let cs ← assetsEntryDiff oldName oldAsset newAsset maxkey planning indent summary debug
      let rest ← assetsDiffLoop orest nrest maxkey planning indent summary debug
      pure (cs ++ rest)
    else if oldName < newName then do
      let rest ← assetsDiffLoop orest ((newName, newAsset) :: nrest) maxkey planning indent summary debug
      pure (printDelete massage (assetOrArchiveToPropertyValue oldAsset)
              (fun top tpfx => printPropertyTitle ("\"" ++ oldName ++ "\"") maxkey indent top tpfx)
              planning (indent + 1) debug ++ rest)
    else do
      let rest ← assetsDiffLoop ((oldName, oldAsset) :: orest) nrest maxkey planning indent summary debug
      pure (printAdd massage (assetOrArchiveToPropertyValue newAsset)
              (fun top tpfx => printPropertyTitle ("\"" ++ newName ++ "\"") maxkey indent top tpfx)
              planning (indent + 1) debug ++ rest)
  | (oldName, oldAsset) :: orest, [] => do
    let rest ← assetsDiffLoop orest [] maxkey planning indent summary debug
    pure (printDelete massage (assetOrArchiveToPropertyValue oldAsset)
            (fun top tpfx => printPropertyTitle ("\"" ++ oldName ++ "\"") maxkey indent top tpfx)
            planning (indent + 1) debug ++ rest)
  | [], (newName, newAsset) :: nrest => do
    let rest ← assetsDiffLoop [] nrest maxkey planning indent summary debug
    pure (printAdd massage (assetOrArchiveToPropertyValue newAsset)
            (fun top tpfx => printPropertyTitle ("\"" ++ newName ++ "\"") maxkey indent top tpfx)
            planning (indent + 1) debug ++ rest)
termination_by 2 * (sizeOf olds + sizeOf news)
decreasing_by all_goals (simp [sizeOf_sortByKey]; try omega)

end

end Renderer

mutual

/-- Structural diff of two values (`resource.ValueDiff`): old and new value,
plus at most one of an array diff or an object diff (spec §3). -/
inductive ValueDiff
  | mk (old new : PropertyValue) (array : Option ArrayDiff) (object : Option ObjectDiff)

/-- Structural diff of two arrays (`resource.ArrayDiff`), with its `Len` and
index-keyed維 add/delete/update/same maps (spec §3). -/
inductive ArrayDiff
  | mk (len : Nat) (adds deletes : List (Nat × PropertyValue))
      (updates : List (Nat × ValueDiff)) (sames : List (Nat × PropertyValue))

/-- Structural diff of two objects (`resource.ObjectDiff`): four key-keyed
maps; every key appears in exactly one map (spec §3 invariant). -/
inductive ObjectDiff
  | mk (adds deletes : List (String × PropertyValue))
      (updates : List (String × ValueDiff)) (sames : List (String × PropertyValue))

end

/-- Field accessor `ValueDiff.Old`. -/
def ValueDiff.old : ValueDiff → PropertyValue
  | .mk o _ _ _ => o

/-- Field accessor `ValueDiff.New`. -/
def ValueDiff.new : ValueDiff → PropertyValue
  | .mk _ n _ _ => n

/-- Field accessor `ValueDiff.Array`. -/
def ValueDiff.array : ValueDiff → Option ArrayDiff
  | .mk _ _ a _ => a

/-- Field accessor `ValueDiff.Object`. -/
def ValueDiff.object : ValueDiff → Option ObjectDiff
  | .mk _ _ _ o => o

/-- Field accessor `ArrayDiff.Len`. -/
def ArrayDiff.len : ArrayDiff → Nat
  | .mk l _ _ _ _ => l

/-- Field accessor `ArrayDiff.Adds`. -/
def ArrayDiff.adds : ArrayDiff → List (Nat × PropertyValue)
  | .mk _ a _ _ _ => a

/-- Field accessor `ArrayDiff.Deletes`. -/
def ArrayDiff.deletes : ArrayDiff → List (Nat × PropertyValue)
  | .mk _ _ d _ _ => d

/-- Field accessor `ArrayDiff.Updates`. -/
def ArrayDiff.updates : ArrayDiff → List (Nat × ValueDiff)
  | .mk _ _ _ u _ => u

/-- Field accessor `ArrayDiff.Sames`. -/
def ArrayDiff.sames : ArrayDiff → List (Nat × PropertyValue)
  | .mk _ _ _ _ s => s

/-- Field accessor `ObjectDiff.Adds`. -/
def ObjectDiff.adds : ObjectDiff → List (String × PropertyValue)
  | .mk a _ _ _ => a

/-- Field accessor `ObjectDiff.Deletes`. -/
def ObjectDiff.deletes : ObjectDiff → List (String × PropertyValue)
  | .mk _ d _ _ => d

/-- Field accessor `ObjectDiff.Updates`. -/
def ObjectDiff.updates : ObjectDiff → List (String × ValueDiff)
  | .mk _ _ u _ => u

/-- Field accessor `ObjectDiff.Sames`. -/
def ObjectDiff.sames : ObjectDiff → List (String × PropertyValue)
  | .mk _ _ _ s => s

/-- Insertion step of the plain string sort. -/
def insertStr (x : String) : List String → List String
  | [] => [x]
  | y :: ys => if x < y ∨ x = y then x :: y :: ys else y :: insertStr x ys

/-- Lexicographic sort of a string list. -/
def sortStr : List String → List String
  | [] => []
  | x :: xs => insertStr x (sortStr xs)

/-- Modelled from the spec: `resource.ObjectDiff.Keys()` lives in the
external resource package.  Spec §4.3: the renderer iterates over "the
lexicographically sorted union of all four diff maps". -/
def ObjectDiff.keys (d : ObjectDiff) : List String :=
  sortStr ((d.adds.map Prod.fst ++ d.deletes.map Prod.fst ++
            d.updates.map Prod.fst ++ d.sames.map Prod.fst).eraseDups)

theorem ValueDiff.sizeOf_array_lt {d : ValueDiff} {a : ArrayDiff}
    (h : d.array = some a) : sizeOf a < sizeOf d := by
  cases d with
  | mk o n ar ob =>
    simp [ValueDiff.array] at h
    subst h
    simp
    omega

theorem ValueDiff.sizeOf_object_lt {d : ValueDiff} {od : ObjectDiff}
    (h : d.object = some od) : sizeOf od < sizeOf d := by
  cases d with
  | mk o n ar ob =>
    simp [ValueDiff.object] at h
    subst h
    simp
    omega

theorem sizeOf_objectDiff_updates_lookup {od : ObjectDiff} {k : String} {upd : ValueDiff}
    (h : List.lookup k od.updates = some upd) : sizeOf upd < sizeOf od := by
  have h1 := sizeOf_lookup_lt h
  cases od with
  | mk a d u s =>
    simp [ObjectDiff.updates] at h1
    simp
    omega

theorem sizeOf_arrayDiff_updates_lookup {a : ArrayDiff} {i : Nat} {upd : ValueDiff}
    (h : List.lookup i a.updates = some upd) : sizeOf upd < sizeOf a := by
  have h1 := sizeOf_lookup_lt h
  cases a with
  | mk l ad d u s =>
    simp [ArrayDiff.updates] at h1
    simp
    omega

section DiffRenderer

variable (massage : Asset → Bool → Asset)
variable (lineDiffFn : String → String → List LineDiff)

mutual

/-- Embedding of `printObjectDiff(b, diff, replaces, causedReplace, planning,
indent, summary, debug)` (diff.go:403-448): assert a positive indent, compute
the aligned key width and the replace-key map, then run the key loop. -/
def printObjectDiff (od : ObjectDiff) (replaces : List String)
    (causedReplace planning : Bool) (indent : Nat) (summary debug : Bool) :
    Option (List Chunk) :=
  if indent = 0 then none
  else
    let replaceMap : Option (List String) :=
      if replaces.length > 0 then some replaces else none
    printObjectDiffKeys od replaceMap (maxKey od.keys) causedReplace planning
      indent summary debug od.keys
termination_by (sizeOf od, od.keys.length + 1)
decreasing_by
  all_goals simp_wf
  all_goals (apply Prod.Lex.right; omega)

/-- The key loop of `printObjectDiff` (diff.go:422-447): each key is an add,
a delete, an update (where the `causedReplace` flag may flip to true and then
flows into both the recursive render and the rest of the loop), or a same. -/
def printObjectDiffKeys (od : ObjectDiff) (replaceMap : Option (List String))
    (maxkey : Nat) (causedReplace planning : Bool) (indent : Nat)
    (summary debug : Bool) (keys : List String) : Option (List Chunk) :=
  match keys with
  | [] => some []
  | k :: rest =>
    let titleF : TitleFn := fun top tpfx => printPropertyTitle k maxkey indent top tpfx
    match List.lookup k od.adds with
    | some add => do
      let rest' ← printObjectDiffKeys od replaceMap maxkey causedReplace planning
        indent summary debug rest
      pure ((if shouldPrintPropertyValue add planning then
               printAdd massage add titleF planning indent debug
             else []) ++ rest')
    | none =>
    match List.lookup k od.deletes with
    | some del => do
      let rest' ← printObjectDiffKeys od replaceMap maxkey causedReplace planning
        indent summary debug rest
      pure ((if shouldPrintPropertyValue del planning then
               printDelete massage del titleF planning indent debug
             else []) ++ rest')
    | none =>
    match hU : List.lookup k od.updates with
    | some upd =>
      let cr := if !causedReplace && replaceMap.isSome then
          (replaceMap.getD []).contains k
        else causedReplace
      do
        let cs ← printPropertyValueDiff titleF upd cr planning indent summary debug
        let rest' ← printObjectDiffKeys od replaceMap maxkey cr planning indent
          summary debug rest
        pure (cs ++ rest')
    | none =>
      let same := (List.lookup k od.sames).getD .null
      let cs := if !summary && shouldPrintPropertyValue same planning then
          titleF .same false ::
          printPropertyValue massage same planning indent .same false debug
        else []
      do
        let rest' ← printObjectDiffKeys od replaceMap maxkey causedReplace planning
          indent summary debug rest
        pure (cs ++ rest')
termination_by (sizeOf od, keys.length)
decreasing_by
  all_goals simp_wf
  all_goals first
    | (apply Prod.Lex.right; omega)
    | (apply Prod.Lex.left; exact sizeOf_objectDiff_updates_lookup hU)

/-- Embedding of `printPropertyValueDiff(b, titleFunc, diff, causedReplace,
planning, indent, summary, debug)` (diff.go:450-510): array diffs and object
diffs recurse; a leaf diff delegates to the archive differ exactly when both
sides are archives, no replacement was caused and both sides are printable,
and otherwise renders the generic delete-then-add fallback. -/
def printPropertyValueDiff (titleF : TitleFn) (d : ValueDiff)
    (causedReplace planning : Bool) (indent : Nat) (summary debug : Bool) :
    Option (List Chunk) :=
  if indent = 0 then none
  else
    match hA : d.array with
    | some a => do
      let inner ← printArrayDiffIdx a (List.range a.len) causedReplace planning
        indent summary debug
      pure (titleF .update true ::
        Chunk.styled .update 0 false "[\n" ::
        inner ++ [Chunk.styled .update indent false "]\n"])
    | none =>
    match hO : d.object with
    | some od => do
      let inner ← printObjectDiff od [] causedReplace planning (indent + 1)
        summary debug
      pure (titleF .update true ::
        Chunk.styled .update 0 false "\x7b\n" ::
        inner ++ [Chunk.styled .update indent false "\x7d\n"])
    | none =>
      let shouldPrintOld := shouldPrintPropertyValue d.old false
      let shouldPrintNew := shouldPrintPropertyValue d.new false
      if d.old.isArchiveV && d.new.isArchiveV && !causedReplace &&
         shouldPrintOld && shouldPrintNew then
        printArchiveDiff massage lineDiffFn titleF d.old.archiveValue
          d.new.archiveValue planning indent summary debug
      else
        some ((if shouldPrintOld then
                 printDelete massage d.old titleF planning indent debug
               else []) ++
              (if shouldPrintNew then
                 printAdd massage d.new titleF planning indent debug
               else []))
termination_by (sizeOf d, 0)
decreasing_by
  all_goals simp_wf
  all_goals (apply Prod.Lex.left; first
    | exact ValueDiff.sizeOf_array_lt hA
    | exact ValueDiff.sizeOf_object_lt hO)

/-- The index loop of `printPropertyValueDiff`'s array branch
(diff.go:462-479). -/
def printArrayDiffIdx (a : ArrayDiff) (idxs : List Nat)
    (causedReplace planning : Bool) (indent : Nat) (summary debug : Bool) :
    Option (List Chunk) :=
  match idxs with
  | [] => some []
  | i :: rest =>
    let elemTitle : TitleFn := fun eop epfx =>
      Chunk.styled eop (indent + 1) epfx ("[" ++ toString i ++ "]: ")
    match List.lookup i a.adds with
    | some add => do
      let rest' ← printArrayDiffIdx a rest causedReplace planning indent summary debug
      pure (printAdd massage add elemTitle planning (indent + 2) debug ++ rest')
    | none =>
    match List.lookup i a.deletes with
    | some del => do
      let rest' ← printArrayDiffIdx a rest causedReplace planning indent summary debug
      pure (printDelete massage del elemTitle planning (indent + 2) debug ++ rest')
    | none =>
    match hU : List.lookup i a.updates with
    | some upd => do
      let cs ← printPropertyValueDiff elemTitle upd causedReplace planning
        (indent + 2) summary debug
      let rest' ← printArrayDiffIdx a rest causedReplace planning indent summary debug
      pure (cs ++ rest')
    | none =>
      let cs := if !summary then
          elemTitle .same false ::
          printPropertyValue massage ((List.lookup i a.sames).getD .null) planning
            (indent + 2) .same false debug
        else []
      do
        let rest' ← printArrayDiffIdx a rest causedReplace planning indent summary debug
        pure (cs ++ rest')
termination_by (sizeOf a, idxs.length)
decreasing_by
  all_goals simp_wf
  all_goals first
    | (apply Prod.Lex.right; omega)
    | (apply Prod.Lex.left; exact sizeOf_arrayDiff_updates_lookup hU)

end

variable (objectDiffOf : List (String × PropertyValue) → List (String × PropertyValue) → Option ObjectDiff)

/-- Embedding of `printOldNewDiffs(b, olds, news, replaces, planning, indent,
op, summary, debug)` (diff.go:390-401).  `olds.Diff(news)` is the external
structural-diff computation (out of scope per spec §1), taken as the
parameter `objectDiffOf`. -/
def printOldNewDiffs (olds news : List (String × PropertyValue))
    (replaces : List String) (planning : Bool) (indent : Nat) (op : StepOp)
    (summary debug : Bool) : Option (List Chunk) :=
  match objectDiffOf olds news with
  | some diff => printObjectDiff massage lineDiffFn diff replaces false planning indent summary debug
  | none => some (printObject massage news planning indent op true debug)

/-- The old or new snapshot of a step (`resource.State`); only the `Inputs`
property map is consumed by `GetResourcePropertiesDetails`. -/
structure StepState where
  inputs : List (String × PropertyValue)

/-- The fields of `StepEventMetadata` consumed by
`GetResourcePropertiesDetails`: the operation, the replace-forcing keys, and
the optional old/new snapshots. -/
structure StepEventMetadata where
  op : StepOp
  keys : List String
  old : Option StepState
  new : Option StepState

/-- Abnormal termination of the renderer: the nil-pointer dereference
reachable in `GetResourcePropertiesDetails`, or any other panic
(`contract.Assert` failure / failing type assertion) from the inner
renderers. -/
inductive GoPanic
  | nilDereference
  | otherPanic
deriving DecidableEq, Repr

/-- Embedding of `GetResourcePropertiesDetails(step, indent, planning,
summary, debug)` (diff.go:134-163).  When both snapshots are absent, the Go
`else` branch evaluates `old.Inputs` on a nil pointer: modelled as
`.error .nilDereference`. -/
def GetResourcePropertiesDetails (step : StepEventMetadata) (indent : Nat)
    (planning summary debug : Bool) : Except GoPanic (List Chunk) :=
  let indent := indent + 1
  let replaces := if step.op = .createReplacement ∨ step.op = .replace then step.keys else []
  match step.old, step.new with
  | none, some n =>
    .ok (printObject massage n.inputs planning indent step.op false debug)
  | some o, none =>
    .ok (if !summary then printObject massage o.inputs planning indent step.op false debug else [])
  | some o, some n =>
    match printOldNewDiffs massage lineDiffFn objectDiffOf o.inputs n.inputs
        replaces planning indent step.op summary debug with
    | some cs => .ok cs
    | none => .error .otherPanic
  | none, none => .error .nilDereference

end DiffRenderer

mutual

/-- Mirror of `printPropertyValueDiff`'s control flow that records whether the
specialized archive differ (`printArchiveDiff`, diff.go:495-498) is reached
anywhere in the subtree: same branch structure, with `true` exactly in the
delegation branch. -/
def valueDiffUsesArchive (d : ValueDiff) (causedReplace : Bool) : Bool :=
  match hA : d.array with
  | some a => arrayDiffUsesArchive a (List.range a.len) causedReplace
  | none =>
    match hO : d.object with
    | some od => objectDiffUsesArchiveKeys od none causedReplace od.keys
    | none =>
      d.old.isArchiveV && d.new.isArchiveV && !causedReplace &&
      shouldPrintPropertyValue d.old false && shouldPrintPropertyValue d.new false
termination_by (sizeOf d, 0)
decreasing_by
  all_goals simp_wf
  all_goals (apply Prod.Lex.left; first
    | exact ValueDiff.sizeOf_array_lt hA
    | exact ValueDiff.sizeOf_object_lt hO)

/-- Mirror of `printArrayDiffIdx`'s control flow for archive-differ use. -/
def arrayDiffUsesArchive (a : ArrayDiff) (idxs : List Nat) (causedReplace : Bool) : Bool :=
  match idxs with
  | [] => false
  | i :: rest =>
    (match List.lookup i a.adds with
     | some _ => false
     | none =>
       match List.lookup i a.deletes with
       | some _ => false
       | none =>
         match hU : List.lookup i a.updates with
         | some upd => valueDiffUsesArchive upd causedReplace
         | none => false) ||
    arrayDiffUsesArchive a rest causedReplace
termination_by (sizeOf a, idxs.length)
decreasing_by
  all_goals simp_wf
  all_goals first
    | (apply Prod.Lex.right; omega)
    | (apply Prod.Lex.left; exact sizeOf_arrayDiff_updates_lookup hU)

/-- Mirror of `printObjectDiffKeys`'s control flow for archive-differ use,
threading the `causedReplace` flag exactly as the source loop does. -/
def objectDiffUsesArchiveKeys (od : ObjectDiff) (replaceMap : Option (List String))
    (causedReplace : Bool) (keys : List String) : Bool :=
  match keys with
  | [] => false
  | k :: rest =>
    match List.lookup k od.adds with
    | some _ => objectDiffUsesArchiveKeys od replaceMap causedReplace rest
    | none =>
    match List.lookup k od.deletes with
    | some _ => objectDiffUsesArchiveKeys od replaceMap causedReplace rest
    | none =>
    match hU : List.lookup k od.updates with
    | some upd =>
      let cr := if !causedReplace && replaceMap.isSome then
          (replaceMap.getD []).contains k
        else causedReplace
      valueDiffUsesArchive upd cr || objectDiffUsesArchiveKeys od replaceMap cr rest
    | none => objectDiffUsesArchiveKeys od replaceMap causedReplace rest
termination_by (sizeOf od, keys.length)
decreasing_by
  all_goals simp_wf
  all_goals first
    | (apply Prod.Lex.right; omega)
    | (apply Prod.Lex.left; exact sizeOf_objectDiff_updates_lookup hU)

end

/-- One step of the sorted-name merge: a name treated as a deletion, a
recursive update, or an addition. -/
inductive MergeAction
  | del (name : String)
  | upd (name : String)
  | add (name : String)
deriving DecidableEq, Repr

/-- The name an action is about. -/
def MergeAction.name : MergeAction → String
  | .del n => n
  | .upd n => n
  | .add n => n

/-- Name-level skeleton of `assetsDiffLoop`'s two-pointer merge
(diff.go:612-677): which names are emitted as deletions, updates and
additions, in emission order. -/
def mergeActions : List String → List String → List MergeAction
  | [], [] => []
  | o :: os, n :: ns =>
    if o = n then .upd o :: mergeActions os ns
    else if o < n then .del o :: mergeActions os (n :: ns)
    else .add n :: mergeActions (o :: os) ns
  | o :: os, [] => .del o :: mergeActions os []
  | [], n :: ns => .add n :: mergeActions [] ns
termination_by olds news => olds.length + news.length

/-- The non-blank lines of a text: what the trimming loop of the `Equal`
branch keeps (diff.go:806-812). -/
def nonblankLines (t : String) : List String := (splitLines t).filter nonblank

/-- Emission of a list of lines, each as one styled chunk followed by a raw
newline (used to state the windowing policy of `diffToPrettyString`). -/
def emitAll (op : StepOp) (indent : Nat) (ls : List String) : List Chunk :=
  ls.flatMap (fun l => [writeDiffChunk op indent l, Chunk.raw "\n"])

/-! ## Supporting lemmas -/

theorem glyph_length (op : StepOp) : op.glyph.length = 2 := by
  cases op <;> decide

theorem indentSpaces_data (n : Nat) : (indentSpaces n).data = List.replicate (4 * n) ' ' := by
  induction n with
  | zero => rfl
  | succ k ih =>
    calc (indentSpaces (k + 1)).data
        = (indentSpaces k).data ++ "    ".data := rfl
      _ = List.replicate (4 * k) ' ' ++ List.replicate 4 ' ' := by
          rw [ih, (by decide : "    ".data = List.replicate 4 ' ')]
      _ = List.replicate (4 * k + 4) ' ' := (List.replicate_add (4 * k) 4 ' ').symm
      _ = List.replicate (4 * (k + 1)) ' ' := by ring_nf

theorem indentSpaces_length (n : Nat) : (indentSpaces n).length = 4 * n := by
  show (indentSpaces n).data.length = 4 * n
  rw [indentSpaces_data, List.length_replicate]

theorem spaces_length (n : Nat) : (spaces n).length = n := by
  show (List.replicate n ' ').length = n
  simp

theorem indentSpaces_eq_empty_iff (n : Nat) : (indentSpaces n = "") ↔ n = 0 := by
  constructor
  · intro h
    have h2 := congrArg String.length h
    rw [indentSpaces_length] at h2
    have h3 : (4 : Nat) * n = 0 := by simpa using h2
    omega
  · intro h
    subst h
    rfl

theorem indentSpaces_eq_spaces (n : Nat) : indentSpaces n = spaces (4 * n) := by
  apply congrArg String.mk
  rw [indentSpaces_data]

/-! ## Claim C6 — the print filter -/

/-- Claim C6: for every property value `v` and flag `showOutputs`,
`shouldPrint(v, showOutputs)` is false exactly when `v` is Null, an empty
String, an empty Array, an empty Object, or an Output value with
`showOutputs` unset, and true for every other value. -/
theorem C6_shouldPrint_iff (v : PropertyValue) (outs : Bool) :
    shouldPrintPropertyValue v outs = false ↔
      (v = .null ∨ v = .stringV "" ∨ v = .array [] ∨ v = .object [] ∨
       (outs = false ∧ ∃ t, v = .outputV t)) := by
  cases v with
  | stringV s =>
    by_cases hs : s = "" <;>
      simp [shouldPrintPropertyValue, PropertyValue.isNull, PropertyValue.isStringV,
        PropertyValue.stringValue, PropertyValue.isArray, PropertyValue.isObject,
        PropertyValue.isOutputV, hs]
  | array xs =>
    cases xs <;>
      simp [shouldPrintPropertyValue, PropertyValue.isNull, PropertyValue.isStringV,
        PropertyValue.isArray, PropertyValue.arrayValue, PropertyValue.isObject,
        PropertyValue.isOutputV]
  | object m =>
    cases m <;>
      simp [shouldPrintPropertyValue, PropertyValue.isNull, PropertyValue.isStringV,
        PropertyValue.isArray, PropertyValue.isObject, PropertyValue.objectValue,
        PropertyValue.isOutputV]
  | outputV t =>
    cases outs <;>
      simp [shouldPrintPropertyValue, PropertyValue.isNull, PropertyValue.isStringV,
        PropertyValue.isArray, PropertyValue.isObject, PropertyValue.isOutputV]
  | _ =>
    simp [shouldPrintPropertyValue, PropertyValue.isNull, PropertyValue.isStringV,
      PropertyValue.isArray, PropertyValue.isObject, PropertyValue.isOutputV]

/-! ## Claim C8 — hash truncation -/

/-- Claim C8: the displayed short hash is exactly the first 7 characters when
the hash has more than 7 characters, and the full hash string otherwise,
including the boundary case of length exactly 7. -/
theorem C8_shortHash_truncation (h : String) :
    (7 < h.length → shortHash h = h.take 7) ∧
    (h.length ≤ 7 → shortHash h = h) ∧
    (h.length = 7 → shortHash h = h) := by
  refine ⟨fun hlen => ?_, fun hlen => ?_, fun hlen => ?_⟩
  · rw [shortHash, if_pos (by omega : h.length > 7)]
  · rw [shortHash, if_neg (by omega : ¬h.length > 7)]
  · rw [shortHash, if_neg (by omega : ¬h.length > 7)]

/-- Witness for C8 at concrete hashes of length 8, 7 and 3. -/
theorem C8_witness :
    shortHash "abcdefgh" = "abcdefg" ∧ shortHash "abcdefg" = "abcdefg" ∧
    shortHash "abc" = "abc" := by
  refine ⟨?_, ?_, ?_⟩
  · rw [(C8_shortHash_truncation "abcdefgh").1 (by decide)]
    decide
  · exact (C8_shortHash_truncation "abcdefg").2.2 (by decide)
  · exact (C8_shortHash_truncation "abc").2.1 (by decide)

/-! ## Claim C7 — indentation and glyph placement -/

/-- Claim C7: for every level > 0, `indentString(level, op, wantPrefix)`
returns a string of length `level*4` of spaces whose last two characters are
replaced by `op`'s two-character glyph when `wantPrefix` is set (and are
spaces otherwise); the two-character-glyph assertion holds for every
operation tag; and the call fails exactly when `level = 0` with `wantPrefix`
set. -/
theorem C7_indentation :
    (∀ op : StepOp, op.glyph.length = 2) ∧
    (∀ (level : Nat) (op : StepOp) (pfx : Bool),
      getIndentationString level op pfx = none ↔ (level = 0 ∧ pfx = true)) ∧
    (∀ (level : Nat) (op : StepOp) (pfx : Bool), 0 < level →
      getIndentationString level op pfx =
        some (spaces (4 * level - 2) ++ (if pfx then op.glyph else "  ")) ∧
      ∀ s, getIndentationString level op pfx = some s → s.length = 4 * level) := by
  have hmain : ∀ (level : Nat) (op : StepOp) (pfx : Bool), 0 < level →
      getIndentationString level op pfx =
        some (spaces (4 * level - 2) ++ (if pfx then op.glyph else "  ")) := by
    intro level op pfx hpos
    have hne : ¬(indentSpaces level = "") := by
      rw [indentSpaces_eq_empty_iff]
      omega
    have hrp : (if pfx then op.glyph else "  ").length = 2 := by
      cases pfx <;> simp [glyph_length] <;> decide
    have hlen : 2 ≤ (indentSpaces level).length := by
      rw [indentSpaces_length]
      omega
    have hdata : (indentSpaces level).data.take ((indentSpaces level).data.length - 2) =
        List.replicate (4 * level - 2) ' ' := by
      rw [indentSpaces_data, List.length_replicate, List.take_replicate]
      congr 1
      omega
    simp only [getIndentationString, hne, if_false, hrp, hlen, and_self, if_pos, ite_true,
      true_and, hdata]
    rfl
  refine ⟨glyph_length, fun level op pfx => ?_, fun level op pfx hpos => ?_⟩
  · cases level with
    | zero =>
      cases pfx <;> simp [getIndentationString, indentSpaces]
    | succ k =>
      rw [hmain (k + 1) op pfx (by omega)]
      simp
  · refine ⟨hmain level op pfx hpos, fun s hs => ?_⟩
    rw [hmain level op pfx hpos] at hs
    injection hs with hs
    rw [← hs, String.length_append, spaces_length]
    have hrp : (if pfx then op.glyph else "  ").length = 2 := by
      cases pfx <;> simp [glyph_length] <;> decide
    rw [hrp]
    omega

/-- Witness for C7: level 2 with and without a glyph, and the level-0 failure. -/
theorem C7_witness :
    getIndentationString 2 StepOp.create true = some "      + " ∧
    getIndentationString 2 StepOp.create false = some "        " ∧
    getIndentationString 0 StepOp.create true = none := by
  refine ⟨?_, ?_, ?_⟩
  · rw [(C7_indentation.2.2 2 StepOp.create true (by decide)).1]
    decide
  · rw [(C7_indentation.2.2 2 StepOp.create false (by decide)).1]
    decide
  · exact (C7_indentation.2.1 0 StepOp.create true).mpr ⟨rfl, rfl⟩

/-! ## Leaf dispatch of the diff-tree renderer (shared by C1, C2, C3, C10) -/

/-- One-step unfolding of `printPropertyValueDiff` on a leaf `ValueDiff`
(no array diff, no object diff): the archive delegation test of
diff.go:490-499 followed by the generic delete-then-add fallback of
diff.go:501-509. -/
theorem printPropertyValueDiff_leaf
    (massage : Asset → Bool → Asset) (lineDiffFn : String → String → List LineDiff)
    (titleF : TitleFn) (d : ValueDiff) (causedReplace planning : Bool)
    (indent : Nat) (summary debug : Bool)
    (hind : indent ≠ 0) (hA : d.array = none) (hO : d.object = none) :
    printPropertyValueDiff massage lineDiffFn titleF d causedReplace planning indent summary debug =
      (if d.old.isArchiveV && d.new.isArchiveV && !causedReplace &&
          shouldPrintPropertyValue d.old false && shouldPrintPropertyValue d.new false then
        printArchiveDiff massage lineDiffFn titleF d.old.archiveValue d.new.archiveValue planning indent summary debug
      else
        some ((if shouldPrintPropertyValue d.old false then printDelete massage d.old titleF planning indent debug else []) ++
              (if shouldPrintPropertyValue d.new false then printAdd massage d.new titleF planning indent debug else []))) := by
  obtain ⟨o, n, ar, ob⟩ := d
  simp only [ValueDiff.array] at hA
  simp only [ValueDiff.object] at hO
  subst hA
  subst hO
  rw [printPropertyValueDiff]
  simp only [hind, if_false, ValueDiff.array, ValueDiff.object, ValueDiff.old, ValueDiff.new]

/-! ## Claim C3 — causedReplace is monotonic -/

/-- Once the causedReplace flag is true, no descendant of the diff subtree
ever reaches the specialized archive differ: proved over the control-flow
mirrors by the joint functional induction of the renderer. -/
theorem usesArchive_true_aux :
    ∀ (d : ValueDiff) (flag : Bool), flag = true → valueDiffUsesArchive d flag = false := by
  refine valueDiffUsesArchive.induct
    (fun d flag => flag = true → valueDiffUsesArchive d flag = false)
    (fun od rm flag keys => flag = true → objectDiffUsesArchiveKeys od rm flag keys = false)
    (fun a idxs flag => flag = true → arrayDiffUsesArchive a idxs flag = false)
    ?_ ?_ ?_ ?_ ?_ ?_ ?_ ?_ ?_ ?_
  · intro d flag a hA ih hflag
    subst hflag
    obtain ⟨o, n, ar, ob⟩ := d
    simp only [ValueDiff.array] at hA
    subst hA
    rw [valueDiffUsesArchive]
    simp only [ValueDiff.array]
    exact ih rfl
  · intro d flag hA od hO ih hflag
    subst hflag
    obtain ⟨o, n, ar, ob⟩ := d
    simp only [ValueDiff.array] at hA
    simp only [ValueDiff.object] at hO
    subst hA
    subst hO
    rw [valueDiffUsesArchive]
    simp only [ValueDiff.array, ValueDiff.object]
    exact ih rfl
  · intro d flag hA hO hflag
    subst hflag
    obtain ⟨o, n, ar, ob⟩ := d
    simp only [ValueDiff.array] at hA
    simp only [ValueDiff.object] at hO
    subst hA
    subst hO
    rw [valueDiffUsesArchive]
    simp [ValueDiff.array, ValueDiff.object]
  · intro od rm flag hflag
    rw [objectDiffUsesArchiveKeys]
  · intro od rm flag y ys add hadds ih hflag
    subst hflag
    rw [objectDiffUsesArchiveKeys]
    simp only [hadds]
    exact ih rfl
  · intro od rm flag y ys hadds del hdel ih hflag
    subst hflag
    rw [objectDiffUsesArchiveKeys]
    simp only [hadds, hdel]
    exact ih rfl
  · intro od rm flag y ys hadds hdel upd hupd cr ihVal ihRest hflag
    subst hflag
    have hcr : cr = true := by
      simp only [cr]
      simp
    rw [hcr] at ihVal ihRest
    rw [objectDiffUsesArchiveKeys]
    simp only [hadds, hdel]
    split
    · rename_i upd2 heq
      rw [hupd] at heq
      injection heq with heq2
      subst heq2
      simp only [Bool.not_true, Bool.false_and, Bool.false_eq_true, if_false, ite_false]
      rw [ihVal rfl, ihRest rfl]
      rfl
    · rename_i heq
      rw [hupd] at heq
      exact Option.noConfusion heq
  · intro od rm flag y ys hadds hdel hupd ih hflag
    subst hflag
    rw [objectDiffUsesArchiveKeys]
    simp only [hadds, hdel]
    split
    · rename_i upd2 heq
      rw [hupd] at heq
      exact Option.noConfusion heq
    · exact ih rfl
  · intro a flag hflag
    rw [arrayDiffUsesArchive]
  · intro a flag i rest ih1 ih2 hflag
    subst hflag
    rw [arrayDiffUsesArchive]
    cases hadd : List.lookup i a.adds with
    | some v => simp [hadd, ih2 rfl]
    | none =>
      cases hdel : List.lookup i a.deletes with
      | some v => simp [hadd, hdel, ih2 rfl]
      | none =>
        simp only [hadd, hdel]
        rw [ih2 rfl, Bool.or_false]
        split
        · rename_i upd2 heq
          exact ih1 upd2 heq rfl
        · rfl


/-- When the key loop of `printObjectDiff` meets an updated key that is in
the replace-key set, both the subtree render and the remainder of the loop
receive `causedReplace = true`, whatever the incoming flag was
(diff.go:435-442). -/
theorem printObjectDiffKeys_replace_key_step
    (massage : Asset → Bool → Asset) (lineDiffFn : String → String → List LineDiff)
    (od : ObjectDiff) (rm : List String) (maxkey : Nat) (flag planning : Bool)
    (indent : Nat) (summary debug : Bool) (k : String) (rest : List String) (upd : ValueDiff)
    (h1 : List.lookup k od.adds = none) (h2 : List.lookup k od.deletes = none)
    (h3 : List.lookup k od.updates = some upd) (hk : k ∈ rm) :
    printObjectDiffKeys massage lineDiffFn od (some rm) maxkey flag planning indent summary debug (k :: rest) =
      (printPropertyValueDiff massage lineDiffFn
          (fun top tpfx => printPropertyTitle k maxkey indent top tpfx) upd true planning indent summary debug).bind
        (fun cs =>
          (printObjectDiffKeys massage lineDiffFn od (some rm) maxkey true planning indent summary debug rest).bind
            (fun rest2 => some (cs ++ rest2))) := by
  have hcontains : rm.contains k = true := by
    simpa using hk
  rw [printObjectDiffKeys]
  simp only [h1, h2]
  split
  · rename_i upd2 heq
    rw [h3] at heq
    injection heq with heq2
    subst heq2
    cases flag <;> simp [hcontains, hk]
  · rename_i heq
    rw [h3] at heq
    exact Option.noConfusion heq

/-- With `causedReplace` already true, a leaf update always renders via the
generic delete-then-add fallback — the archive delegation test of
diff.go:490-494 contains `!causedReplace` and cannot fire. -/
theorem printPropertyValueDiff_true_leaf
    (massage : Asset → Bool → Asset) (lineDiffFn : String → String → List LineDiff)
    (titleF : TitleFn) (d : ValueDiff) (planning : Bool)
    (indent : Nat) (summary debug : Bool)
    (hind : indent ≠ 0) (hA : d.array = none) (hO : d.object = none) :
    printPropertyValueDiff massage lineDiffFn titleF d true planning indent summary debug =
      some ((if shouldPrintPropertyValue d.old false then printDelete massage d.old titleF planning indent debug else []) ++
            (if shouldPrintPropertyValue d.new false then printAdd massage d.new titleF planning indent debug else [])) := by
  rw [printPropertyValueDiff_leaf massage lineDiffFn titleF d true planning indent summary
    debug hind hA hO]
  rw [if_neg (by simp)]

/-- Claim C3: the `causedReplace` flag is monotonic through the diff-tree
recursion.  (i) When an updated key is in the replace-key set, the key loop
passes `true` both into that key's subtree and into the remainder of the
loop, whatever the incoming flag; (ii) with the flag true, no descendant of
the subtree ever reaches the specialized archive differ (over the
control-flow mirror of the renderer); (iii) with the flag true, every leaf
update renders via the generic delete-then-add fallback, even when old and
new are both archives. -/
theorem C3_causedReplace_monotonic :
    (∀ (massage : Asset → Bool → Asset) (lineDiffFn : String → String → List LineDiff)
       (od : ObjectDiff) (rm : List String) (maxkey : Nat) (flag planning : Bool)
       (indent : Nat) (summary debug : Bool) (k : String) (rest : List String) (upd : ValueDiff),
      List.lookup k od.adds = none → List.lookup k od.deletes = none →
      List.lookup k od.updates = some upd → k ∈ rm →
      printObjectDiffKeys massage lineDiffFn od (some rm) maxkey flag planning indent summary debug (k :: rest) =
        (printPropertyValueDiff massage lineDiffFn
            (fun top tpfx => printPropertyTitle k maxkey indent top tpfx) upd true planning indent summary debug).bind
          (fun cs =>
            (printObjectDiffKeys massage lineDiffFn od (some rm) maxkey true planning indent summary debug rest).bind
              (fun rest2 => some (cs ++ rest2)))) ∧
    (∀ d : ValueDiff, valueDiffUsesArchive d true = false) ∧
    (∀ (massage : Asset → Bool → Asset) (lineDiffFn : String → String → List LineDiff)
       (titleF : TitleFn) (d : ValueDiff) (planning : Bool) (indent : Nat) (summary debug : Bool),
      indent ≠ 0 → d.array = none → d.object = none →
      printPropertyValueDiff massage lineDiffFn titleF d true planning indent summary debug =
        some ((if shouldPrintPropertyValue d.old false then printDelete massage d.old titleF planning indent debug else []) ++
              (if shouldPrintPropertyValue d.new false then printAdd massage d.new titleF planning indent debug else []))) := by
  refine ⟨?_, ?_, ?_⟩
  · intro massage lineDiffFn od rm maxkey flag planning indent summary debug k rest upd h1 h2 h3 hk
    exact printObjectDiffKeys_replace_key_step massage lineDiffFn od rm maxkey flag planning
      indent summary debug k rest upd h1 h2 h3 hk
  · intro d
    exact usesArchive_true_aux d true rfl
  · intro massage lineDiffFn titleF d planning indent summary debug hind hA hO
    exact printPropertyValueDiff_true_leaf massage lineDiffFn titleF d planning indent summary
      debug hind hA hO

/-- Witness for C3 at a concrete replace-forcing key `size` whose update is
an archive-to-archive leaf: the loop step passes the flag as true, the
mirror reports no archive-differ use, and the leaf renders delete-then-add. -/
theorem C3_witness :
    printObjectDiffKeys (fun a _ => a) (fun _ _ => [])
      (ObjectDiff.mk [] [] [("size", ValueDiff.mk (.archiveV (.file "a.zip" "h1"))
        (.archiveV (.file "b.zip" "h2")) none none)] [])
      (some ["size"]) 4 false false 1 false false ["size"] =
      (printPropertyValueDiff (fun a _ => a) (fun _ _ => [])
          (fun top tpfx => printPropertyTitle "size" 4 1 top tpfx)
          (ValueDiff.mk (.archiveV (.file "a.zip" "h1")) (.archiveV (.file "b.zip" "h2")) none none)
          true false 1 false false).bind
        (fun cs =>
          (printObjectDiffKeys (fun a _ => a) (fun _ _ => [])
              (ObjectDiff.mk [] [] [("size", ValueDiff.mk (.archiveV (.file "a.zip" "h1"))
                (.archiveV (.file "b.zip" "h2")) none none)] [])
              (some ["size"]) 4 true false 1 false false []).bind
            (fun rest2 => some (cs ++ rest2))) ∧
    valueDiffUsesArchive
      (ValueDiff.mk (.archiveV (.file "a.zip" "h1")) (.archiveV (.file "b.zip" "h2")) none none)
      true = false ∧
    printPropertyValueDiff (fun a _ => a) (fun _ _ => [])
      (fun top tpfx => printPropertyTitle "size" 4 1 top tpfx)
      (ValueDiff.mk (.archiveV (.file "a.zip" "h1")) (.archiveV (.file "b.zip" "h2")) none none)
      true false 1 false false =
      some (printDelete (fun a _ => a) (.archiveV (.file "a.zip" "h1"))
              (fun top tpfx => printPropertyTitle "size" 4 1 top tpfx) false 1 false ++
            printAdd (fun a _ => a) (.archiveV (.file "b.zip" "h2"))
              (fun top tpfx => printPropertyTitle "size" 4 1 top tpfx) false 1 false) := by
  refine ⟨?_, ?_, ?_⟩
  · exact C3_causedReplace_monotonic.1 (fun a _ => a) (fun _ _ => [])
      (ObjectDiff.mk [] [] [("size", ValueDiff.mk (.archiveV (.file "a.zip" "h1"))
        (.archiveV (.file "b.zip" "h2")) none none)] [])
      ["size"] 4 false false 1 false false "size" []
      (ValueDiff.mk (.archiveV (.file "a.zip" "h1")) (.archiveV (.file "b.zip" "h2")) none none)
      rfl rfl rfl (by simp)
  · exact C3_causedReplace_monotonic.2.1
      (ValueDiff.mk (.archiveV (.file "a.zip" "h1")) (.archiveV (.file "b.zip" "h2")) none none)
  · have h := C3_causedReplace_monotonic.2.2 (fun a _ => a) (fun _ _ => [])
      (fun top tpfx => printPropertyTitle "size" 4 1 top tpfx)
      (ValueDiff.mk (.archiveV (.file "a.zip" "h1")) (.archiveV (.file "b.zip" "h2")) none none)
      false 1 false false (by decide) rfl rfl
    rw [h]
    simp [ValueDiff.old, ValueDiff.new, shouldPrintPropertyValue, PropertyValue.isNull,
      PropertyValue.isStringV, PropertyValue.isArray, PropertyValue.isObject,
      PropertyValue.isOutputV]

/-! ## Claim C9 — the details entry point needs a snapshot -/

theorem detailsMatch_ne_nilDeref (r : Option (List Chunk)) :
    (match r with
     | some cs => (Except.ok cs : Except GoPanic (List Chunk))
     | none => Except.error GoPanic.otherPanic) ≠ Except.error GoPanic.nilDereference := by
  cases r <;> simp

/-- Claim C9: `GetResourcePropertiesDetails` dereferences the old snapshot's
inputs when both snapshots are absent (modelled as the nil-dereference
error), and under the precondition that at least one snapshot is present the
nil-dereference branch is unreachable. -/
theorem C9_details_requires_snapshot
    (massage : Asset → Bool → Asset) (lineDiffFn : String → String → List LineDiff)
    (objectDiffOf : List (String × PropertyValue) → List (String × PropertyValue) → Option ObjectDiff)
    (step : StepEventMetadata) (indent : Nat) (planning summary debug : Bool) :
    (step.old = none → step.new = none →
      GetResourcePropertiesDetails massage lineDiffFn objectDiffOf step indent planning summary debug =
        Except.error GoPanic.nilDereference) ∧
    (step.old.isSome ∨ step.new.isSome →
      GetResourcePropertiesDetails massage lineDiffFn objectDiffOf step indent planning summary debug ≠
        Except.error GoPanic.nilDereference) := by
  obtain ⟨op, keys, old, new⟩ := step
  constructor
  · intro h1 h2
    simp only at h1 h2
    subst h1
    subst h2
    rfl
  · intro h
    match old, new with
    | none, none => simp at h
    | some o, none =>
      cases summary <;> simp [GetResourcePropertiesDetails]
    | none, some n =>
      simp [GetResourcePropertiesDetails]
    | some o, some n =>
      simp only [GetResourcePropertiesDetails]
      exact detailsMatch_ne_nilDeref _

/-! ## Claim C1 — unchanged archives still render an Update line -/

/-- Claim C1 (code bug, diff.go:528-572): `printArchiveDiff` performs no
hash-equality check (the source's own TODO at diff.go:533-534 records the
missing check), so two archives with the same hash render an Update-tagged
`archive(file:...)` line — in summary mode and in non-summary mode alike —
never nothing and never a Same-tagged line. -/
theorem C1_unchanged_archive_renders_update :
    printArchiveDiff (fun a _ => a) (fun _ _ => [])
      (fun top tpfx => Chunk.styled top 1 tpfx "content: ")
      (Archive.file "app.zip" "abcdefgh") (Archive.file "app.zip" "abcdefgh") false 1 true false =
      some [Chunk.styled .update 1 true "content: ",
            Chunk.styled .update 0 false "archive(file:abcdefg) \x7b app.zip \x7d\n"] ∧
    printArchiveDiff (fun a _ => a) (fun _ _ => [])
      (fun top tpfx => Chunk.styled top 1 tpfx "content: ")
      (Archive.file "app.zip" "abcdefgh") (Archive.file "app.zip" "abcdefgh") false 1 false false =
      some [Chunk.styled .update 1 true "content: ",
            Chunk.styled .update 0 false "archive(file:abcdefg) \x7b app.zip \x7d\n"] := by
  constructor <;>
    (simp [printArchiveDiff, getTextChangeString, shortHash, Archive.hash]; decide)

/-! ## Claim C2 — only Archive/Archive leaves delegate -/

/-- Counterexample to claim C2 as stated: a leaf update between two file
assets (`causedReplace` false, both printable) does not delegate to the
asset differ — it renders the generic Delete-tagged old value followed by
the Create-tagged new value; the delegation the claim asserts would instead
produce the single Update-tagged asset line shown in the second conjunct. -/
theorem C2_counterexample :
    printPropertyValueDiff (fun a _ => a) (fun _ _ => [])
      (fun top tpfx => Chunk.styled top 1 tpfx "src: ")
      (ValueDiff.mk (.assetV (.file "old.txt" "h1")) (.assetV (.file "new.txt" "h2")) none none)
      false false 1 false false =
      some [Chunk.styled .delete 1 true "src: ",
            Chunk.styled .delete 0 false "asset(file:h1) \x7b old.txt \x7d",
            Chunk.styled .delete 0 false "\n",
            Chunk.styled .create 1 true "src: ",
            Chunk.styled .create 0 false "asset(file:h2) \x7b new.txt \x7d",
            Chunk.styled .create 0 false "\n"] ∧
    printAssetDiff (fun a _ => a) (fun _ _ => [])
      (fun top tpfx => Chunk.styled top 1 tpfx "src: ")
      (.file "old.txt" "h1") (.file "new.txt" "h2") false 1 false false =
      [Chunk.styled .update 1 true "src: ",
       Chunk.styled .update 0 false "asset(file:h1->h2) \x7b old.txt->new.txt \x7d\n"] := by
  constructor
  · rw [printPropertyValueDiff_leaf (fun a _ => a) (fun _ _ => [])
      (fun top tpfx => Chunk.styled top 1 tpfx "src: ")
      (ValueDiff.mk (.assetV (.file "old.txt" "h1")) (.assetV (.file "new.txt" "h2")) none none)
      false false 1 false false (by decide) rfl rfl]
    simp [ValueDiff.old, ValueDiff.new, PropertyValue.isArchiveV, shouldPrintPropertyValue,
      PropertyValue.isNull, PropertyValue.isStringV, PropertyValue.isArray,
      PropertyValue.isObject, PropertyValue.isOutputV, printDelete, printAdd,
      printPropertyValue, shortHash]
    decide
  · simp [printAssetDiff, Asset.hash, getTextChangeString, shortHash]
    decide

/-- Claim C2 (amended): for a leaf `ValueDiff`, the renderer delegates to the
archive structural differ exactly when both `Old` and `New` are Archives
(not Assets), `causedReplace` is false and both values pass the print
filter; every other leaf case — Asset/Asset included — renders the generic
Delete-tagged old value followed by the Create-tagged new value. -/
theorem C2_amended_leaf_dispatch
    (massage : Asset → Bool → Asset) (lineDiffFn : String → String → List LineDiff)
    (titleF : TitleFn) (d : ValueDiff) (causedReplace planning : Bool)
    (indent : Nat) (summary debug : Bool)
    (hind : indent ≠ 0) (hA : d.array = none) (hO : d.object = none) :
    ((d.old.isArchiveV && d.new.isArchiveV && !causedReplace &&
       shouldPrintPropertyValue d.old false && shouldPrintPropertyValue d.new false) = true →
      printPropertyValueDiff massage lineDiffFn titleF d causedReplace planning indent summary debug =
        printArchiveDiff massage lineDiffFn titleF d.old.archiveValue d.new.archiveValue planning indent summary debug) ∧
    ((d.old.isArchiveV && d.new.isArchiveV && !causedReplace &&
       shouldPrintPropertyValue d.old false && shouldPrintPropertyValue d.new false) = false →
      printPropertyValueDiff massage lineDiffFn titleF d causedReplace planning indent summary debug =
        some ((if shouldPrintPropertyValue d.old false then printDelete massage d.old titleF planning indent debug else []) ++
              (if shouldPrintPropertyValue d.new false then printAdd massage d.new titleF planning indent debug else []))) := by
  rw [printPropertyValueDiff_leaf massage lineDiffFn titleF d causedReplace planning
    indent summary debug hind hA hO]
  constructor
  · intro hcond
    rw [if_pos hcond]
  · intro hcond
    rw [if_neg (by simp [hcond])]

/-- Witness for the amended C2: an Archive/Archive leaf delegates (evaluated
on concrete file archives), while an Asset/Asset leaf with the same shape
falls back to delete-then-add. -/
theorem C2_amended_witness :
    printPropertyValueDiff (fun a _ => a) (fun _ _ => [])
      (fun top tpfx => Chunk.styled top 1 tpfx "src: ")
      (ValueDiff.mk (.archiveV (.file "a.zip" "h1")) (.archiveV (.file "b.zip" "h2")) none none)
      false false 1 false false =
      printArchiveDiff (fun a _ => a) (fun _ _ => [])
        (fun top tpfx => Chunk.styled top 1 tpfx "src: ")
        (Archive.file "a.zip" "h1") (Archive.file "b.zip" "h2") false 1 false false ∧
    printPropertyValueDiff (fun a _ => a) (fun _ _ => [])
      (fun top tpfx => Chunk.styled top 1 tpfx "src: ")
      (ValueDiff.mk (.assetV (.file "a.txt" "h1")) (.assetV (.file "b.txt" "h2")) none none)
      false false 1 false false =
      some (printDelete (fun a _ => a) (.assetV (.file "a.txt" "h1"))
              (fun top tpfx => Chunk.styled top 1 tpfx "src: ") false 1 false ++
            printAdd (fun a _ => a) (.assetV (.file "b.txt" "h2"))
              (fun top tpfx => Chunk.styled top 1 tpfx "src: ") false 1 false) := by
  constructor
  · exact (C2_amended_leaf_dispatch (fun a _ => a) (fun _ _ => [])
      (fun top tpfx => Chunk.styled top 1 tpfx "src: ")
      (ValueDiff.mk (.archiveV (.file "a.zip" "h1")) (.archiveV (.file "b.zip" "h2")) none none)
      false false 1 false false (by decide) rfl rfl).1 (by decide)
  · have h := (C2_amended_leaf_dispatch (fun a _ => a) (fun _ _ => [])
      (fun top tpfx => Chunk.styled top 1 tpfx "src: ")
      (ValueDiff.mk (.assetV (.file "a.txt" "h1")) (.assetV (.file "b.txt" "h2")) none none)
      false false 1 false false (by decide) rfl rfl).2 (by decide)
    rw [h]
    simp [ValueDiff.old, ValueDiff.new, shouldPrintPropertyValue, PropertyValue.isNull,
      PropertyValue.isStringV, PropertyValue.isArray, PropertyValue.isObject,
      PropertyValue.isOutputV]

/-! ## Claim C10 — generic leaf fallback print-filter behaviour -/

/-- Claim C10: in the generic leaf-update fallback the Delete-tagged old
value is emitted iff the old value passes the print filter with outputs
disabled, and the Create-tagged new value iff the new value passes it; a
change from Null emits only the Create side, a change to Null emits only the
Delete side, and an Output-valued side is never rendered. -/
theorem C10_leaf_generic_fallback
    (massage : Asset → Bool → Asset) (lineDiffFn : String → String → List LineDiff)
    (titleF : TitleFn) (d : ValueDiff) (causedReplace planning : Bool)
    (indent : Nat) (summary debug : Bool)
    (hind : indent ≠ 0) (hA : d.array = none) (hO : d.object = none) :
    ((d.old.isArchiveV && d.new.isArchiveV && !causedReplace &&
       shouldPrintPropertyValue d.old false && shouldPrintPropertyValue d.new false) = false →
      printPropertyValueDiff massage lineDiffFn titleF d causedReplace planning indent summary debug =
        some ((if shouldPrintPropertyValue d.old false then printDelete massage d.old titleF planning indent debug else []) ++
              (if shouldPrintPropertyValue d.new false then printAdd massage d.new titleF planning indent debug else []))) ∧
    (d.old = .null →
      printPropertyValueDiff massage lineDiffFn titleF d causedReplace planning indent summary debug =
        some (if shouldPrintPropertyValue d.new false then printAdd massage d.new titleF planning indent debug else [])) ∧
    (d.new = .null →
      printPropertyValueDiff massage lineDiffFn titleF d causedReplace planning indent summary debug =
        some (if shouldPrintPropertyValue d.old false then printDelete massage d.old titleF planning indent debug else [])) ∧
    (∀ t, d.old = .outputV t →
      printPropertyValueDiff massage lineDiffFn titleF d causedReplace planning indent summary debug =
        some (if shouldPrintPropertyValue d.new false then printAdd massage d.new titleF planning indent debug else [])) ∧
    (∀ t, d.new = .outputV t →
      printPropertyValueDiff massage lineDiffFn titleF d causedReplace planning indent summary debug =
        some (if shouldPrintPropertyValue d.old false then printDelete massage d.old titleF planning indent debug else [])) := by
  have hleaf := printPropertyValueDiff_leaf massage lineDiffFn titleF d causedReplace planning
    indent summary debug hind hA hO
  refine ⟨fun hcond => ?_, fun hold => ?_, fun hnew => ?_, fun t hold => ?_, fun t hnew => ?_⟩
  · rw [hleaf, if_neg (by simp [hcond])]
  · rw [hleaf, hold]
    simp [PropertyValue.isArchiveV, shouldPrintPropertyValue, PropertyValue.isNull]
  · rw [hleaf, hnew]
    simp [PropertyValue.isArchiveV, shouldPrintPropertyValue, PropertyValue.isNull]
  · rw [hleaf, hold]
    simp [PropertyValue.isArchiveV, shouldPrintPropertyValue, PropertyValue.isNull,
      PropertyValue.isStringV, PropertyValue.isArray, PropertyValue.isObject,
      PropertyValue.isOutputV]
  · rw [hleaf, hnew]
    simp [PropertyValue.isArchiveV, shouldPrintPropertyValue, PropertyValue.isNull,
      PropertyValue.isStringV, PropertyValue.isArray, PropertyValue.isObject,
      PropertyValue.isOutputV]

/-- Witness for C10: a Null-to-string leaf emits only the Create line, an
Output-to-string leaf likewise, and a string-to-Null leaf emits only the
Delete line (all evaluated to concrete chunks). -/
theorem C10_witness :
    printPropertyValueDiff (fun a _ => a) (fun _ _ => [])
      (fun top tpfx => Chunk.styled top 1 tpfx "k: ")
      (ValueDiff.mk .null (.stringV "x") none none) false false 1 false false =
      some [Chunk.styled .create 1 true "k: ",
            Chunk.styled .create 0 false "\"x\"",
            Chunk.styled .create 0 false "\n"] ∧
    printPropertyValueDiff (fun a _ => a) (fun _ _ => [])
      (fun top tpfx => Chunk.styled top 1 tpfx "k: ")
      (ValueDiff.mk (.outputV "output<string>") (.stringV "x") none none) false false 1 false false =
      some [Chunk.styled .create 1 true "k: ",
            Chunk.styled .create 0 false "\"x\"",
            Chunk.styled .create 0 false "\n"] ∧
    printPropertyValueDiff (fun a _ => a) (fun _ _ => [])
      (fun top tpfx => Chunk.styled top 1 tpfx "k: ")
      (ValueDiff.mk (.stringV "x") .null none none) false false 1 false false =
      some [Chunk.styled .delete 1 true "k: ",
            Chunk.styled .delete 0 false "\"x\"",
            Chunk.styled .delete 0 false "\n"] := by
  refine ⟨?_, ?_, ?_⟩
  · rw [(C10_leaf_generic_fallback (fun a _ => a) (fun _ _ => [])
      (fun top tpfx => Chunk.styled top 1 tpfx "k: ")
      (ValueDiff.mk .null (.stringV "x") none none) false false 1 false false
      (by decide) rfl rfl).2.1 rfl]
    simp [ValueDiff.new, shouldPrintPropertyValue, PropertyValue.isNull,
      PropertyValue.isStringV, PropertyValue.stringValue, PropertyValue.isArray,
      PropertyValue.isObject, PropertyValue.isOutputV, printAdd, printPropertyValue]
  · rw [(C10_leaf_generic_fallback (fun a _ => a) (fun _ _ => [])
      (fun top tpfx => Chunk.styled top 1 tpfx "k: ")
      (ValueDiff.mk (.outputV "output<string>") (.stringV "x") none none) false false 1 false false
      (by decide) rfl rfl).2.2.2.1 "output<string>" rfl]
    simp [ValueDiff.new, shouldPrintPropertyValue, PropertyValue.isNull,
      PropertyValue.isStringV, PropertyValue.stringValue, PropertyValue.isArray,
      PropertyValue.isObject, PropertyValue.isOutputV, printAdd, printPropertyValue]
  · rw [(C10_leaf_generic_fallback (fun a _ => a) (fun _ _ => [])
      (fun top tpfx => Chunk.styled top 1 tpfx "k: ")
      (ValueDiff.mk (.stringV "x") .null none none) false false 1 false false
      (by decide) rfl rfl).2.2.1 rfl]
    simp [ValueDiff.old, shouldPrintPropertyValue, PropertyValue.isNull,
      PropertyValue.isStringV, PropertyValue.stringValue, PropertyValue.isArray,
      PropertyValue.isObject, PropertyValue.isOutputV, printDelete, printPropertyValue]

/-- Witness for C9: a step with neither snapshot panics with the nil
dereference; a step with only a new snapshot does not. -/
theorem C9_witness :
    GetResourcePropertiesDetails (fun a _ => a) (fun _ _ => []) (fun _ _ => none)
      ⟨StepOp.update, [], none, none⟩ 0 false false false =
      Except.error GoPanic.nilDereference ∧
    GetResourcePropertiesDetails (fun a _ => a) (fun _ _ => []) (fun _ _ => none)
      ⟨StepOp.create, [], none, some ⟨[]⟩⟩ 0 false false false ≠
      Except.error GoPanic.nilDereference := by
  constructor
  · exact (C9_details_requires_snapshot (fun a _ => a) (fun _ _ => []) (fun _ _ => none)
      ⟨StepOp.update, [], none, none⟩ 0 false false false).1 rfl rfl
  · exact (C9_details_requires_snapshot (fun a _ => a) (fun _ _ => []) (fun _ _ => none)
      ⟨StepOp.create, [], none, some ⟨[]⟩⟩ 0 false false false).2 (Or.inr rfl)

/-! ## Claim C4 — text content differ windowing -/

theorem flatMap_ite_eq_filter_flatMap {α β : Type} (p : α → Bool) (f : α → List β) (l : List α) :
    l.flatMap (fun x => if p x then f x else []) = (l.filter p).flatMap f := by
  induction l with
  | nil => rfl
  | cons x xs ih =>
    by_cases h : p x <;> simp [List.filter_cons, h, ih]

theorem printLinesGo_eq (op : StepOp) (indent : Nat) (lines : List String) (s e : Nat) :
    printLinesGo op indent lines s e =
      emitAll op indent (((lines.drop s).take (e - s)).filter nonblank) := by
  unfold printLinesGo emitAll
  rw [flatMap_ite_eq_filter_flatMap]

theorem filter_nonblank_self (ls : List String) (h : ∀ l ∈ ls, nonblank l = true) :
    ls.filter nonblank = ls :=
  List.filter_eq_self.mpr h

theorem runChunks_insert (n indent idx : Nat) (t : String) :
    runChunks n indent idx ⟨.insert, t⟩ = emitAll .create indent (nonblankLines t) := by
  unfold runChunks
  dsimp only
  rw [printLinesGo_eq]
  simp [nonblankLines]

theorem runChunks_delete (n indent idx : Nat) (t : String) :
    runChunks n indent idx ⟨.delete, t⟩ = emitAll .delete indent (nonblankLines t) := by
  unfold runChunks
  dsimp only
  rw [printLinesGo_eq]
  simp [nonblankLines]

theorem runChunks_equal_first (n indent : Nat) (t : String)
    (h : contextLines + 1 < (nonblankLines t).length) :
    runChunks n indent 0 ⟨.equal, t⟩ =
      writeDiffChunk .same indent "...\n" ::
        emitAll .same indent ((nonblankLines t).drop ((nonblankLines t).length - contextLines)) := by
  unfold runChunks
  dsimp only
  simp only [nonblankLines] at h ⊢
  rw [if_pos trivial, if_pos h, printLinesGo_eq]
  congr 1
  have h1 : ((splitLines t).filter nonblank).length -
      (((splitLines t).filter nonblank).length - contextLines) = contextLines := by omega
  rw [h1]
  rw [List.take_of_length_le (by simp [List.length_drop]; omega)]
  exact congrArg (emitAll StepOp.same indent)
    (filter_nonblank_self _ (fun l hl => List.of_mem_filter (List.mem_of_mem_drop hl)))

theorem runChunks_equal_last (n indent idx : Nat) (t : String)
    (hn : idx = n - 1) (h0 : idx ≠ 0)
    (h : contextLines + 1 < (nonblankLines t).length) :
    runChunks n indent idx ⟨.equal, t⟩ =
      emitAll .same indent ((nonblankLines t).take contextLines) ++
        [writeDiffChunk .same indent "...\n"] := by
  unfold runChunks
  dsimp only
  simp only [nonblankLines] at h ⊢
  rw [if_neg h0, if_pos hn, if_pos h, printLinesGo_eq]
  congr 1
  rw [List.drop_zero, Nat.sub_zero]
  exact congrArg (emitAll StepOp.same indent)
    (filter_nonblank_self _ (fun l hl => List.of_mem_filter (List.mem_of_mem_take hl)))

theorem runChunks_equal_interior (n indent idx : Nat) (t : String)
    (h0 : idx ≠ 0) (hn : idx ≠ n - 1)
    (h : 2 * contextLines + 1 < (nonblankLines t).length) :
    runChunks n indent idx ⟨.equal, t⟩ =
      emitAll .same indent ((nonblankLines t).take contextLines) ++
        writeDiffChunk .same indent "...\n" ::
        emitAll .same indent ((nonblankLines t).drop ((nonblankLines t).length - contextLines)) := by
  unfold runChunks
  dsimp only
  simp only [nonblankLines] at h ⊢
  rw [if_neg h0, if_neg hn, if_pos h, printLinesGo_eq, printLinesGo_eq]
  have e1 : (((List.filter nonblank (splitLines t)).drop 0).take (contextLines - 0)).filter nonblank
      = (List.filter nonblank (splitLines t)).take contextLines := by
    rw [List.drop_zero, Nat.sub_zero]
    exact filter_nonblank_self _ (fun l hl => List.of_mem_filter (List.mem_of_mem_take hl))
  have e2 : (((List.filter nonblank (splitLines t)).drop
        ((List.filter nonblank (splitLines t)).length - contextLines)).take
        ((List.filter nonblank (splitLines t)).length -
          ((List.filter nonblank (splitLines t)).length - contextLines))).filter nonblank
      = (List.filter nonblank (splitLines t)).drop
          ((List.filter nonblank (splitLines t)).length - contextLines) := by
    have h1 : (List.filter nonblank (splitLines t)).length -
        ((List.filter nonblank (splitLines t)).length - contextLines) = contextLines := by
      omega
    rw [h1, List.take_of_length_le (by simp [List.length_drop]; omega)]
    exact filter_nonblank_self _ (fun l hl => List.of_mem_filter (List.mem_of_mem_drop hl))
  rw [e1, e2]
  simp [List.append_assoc]

theorem runChunks_equal_short (n indent idx : Nat) (t : String)
    (c1 : idx = 0 → (nonblankLines t).length ≤ contextLines + 1)
    (c2 : idx = n - 1 → idx ≠ 0 → (nonblankLines t).length ≤ contextLines + 1)
    (c3 : idx ≠ 0 → idx ≠ n - 1 → (nonblankLines t).length ≤ 2 * contextLines + 1) :
    runChunks n indent idx ⟨.equal, t⟩ = emitAll .same indent (nonblankLines t) := by
  unfold runChunks
  dsimp only
  simp only [nonblankLines] at c1 c2 c3 ⊢
  have efull : printLinesGo StepOp.same indent (List.filter nonblank (splitLines t)) 0
      (List.filter nonblank (splitLines t)).length =
      emitAll StepOp.same indent (List.filter nonblank (splitLines t)) := by
    rw [printLinesGo_eq, List.drop_zero, Nat.sub_zero, List.take_length]
    exact congrArg (emitAll StepOp.same indent)
      (filter_nonblank_self _ (fun l hl => List.of_mem_filter hl))
  by_cases h0 : idx = 0
  · rw [if_pos h0, if_neg (Nat.not_lt.mpr (c1 h0))]
    exact efull
  · rw [if_neg h0]
    by_cases hn : idx = n - 1
    · rw [if_pos hn, if_neg (Nat.not_lt.mpr (c2 hn h0))]
      exact efull
    · rw [if_neg hn, if_neg (Nat.not_lt.mpr (c3 h0 hn))]
      exact efull

theorem styled_mem_printLinesGo {op2 : StepOp} {i : Nat} {p : Bool} {t : String}
    {op : StepOp} {indent : Nat} {lines : List String} {s e : Nat}
    (h : Chunk.styled op2 i p t ∈ printLinesGo op indent lines s e) : nonblank t = true := by
  rw [printLinesGo_eq] at h
  unfold emitAll at h
  rw [List.mem_flatMap] at h
  obtain ⟨l, hl, hc⟩ := h
  have hnb : nonblank l = true := List.of_mem_filter hl
  simp only [List.mem_cons, List.not_mem_nil, or_false] at hc
  rcases hc with hc | hc
  · simp only [writeDiffChunk, Chunk.styled.injEq] at hc
    obtain ⟨h1, h2, h3, h4⟩ := hc
    subst h4
    exact hnb
  · simp [writeDiffChunk] at hc

theorem styled_mem_runChunks {op2 : StepOp} {i : Nat} {p : Bool} {t : String}
    {n indent idx : Nat} {d : LineDiff}
    (h : Chunk.styled op2 i p t ∈ runChunks n indent idx d) : nonblank t = true := by
  have hdots : ∀ hc : Chunk.styled op2 i p t = writeDiffChunk StepOp.same indent "...\n",
      nonblank t = true := by
    intro hc
    simp only [writeDiffChunk, Chunk.styled.injEq] at hc
    obtain ⟨h1, h2, h3, h4⟩ := hc
    subst h4
    decide
  unfold runChunks at h
  obtain ⟨ty, tx⟩ := d
  cases ty
  all_goals dsimp only at h
  · exact styled_mem_printLinesGo h
  · exact styled_mem_printLinesGo h
  · split at h
    · split at h
      · rcases List.mem_cons.mp h with hc | hc
        · exact hdots hc
        · exact styled_mem_printLinesGo hc
      · exact styled_mem_printLinesGo h
    · split at h
      · split at h
        · rcases List.mem_append.mp h with hc | hc
          · exact styled_mem_printLinesGo hc
          · simp only [List.mem_singleton] at hc
            exact hdots hc
        · exact styled_mem_printLinesGo h
      · split at h
        · rcases List.mem_append.mp h with hc | hc
          · rcases List.mem_append.mp hc with hc2 | hc2
            · exact styled_mem_printLinesGo hc2
            · simp only [List.mem_singleton] at hc2
              exact hdots hc2
          · exact styled_mem_printLinesGo hc
        · exact styled_mem_printLinesGo h

theorem styled_mem_diffToPrettyString {op2 : StepOp} {i : Nat} {p : Bool} {t : String}
    {diffs : List LineDiff} {indent : Nat}
    (h : Chunk.styled op2 i p t ∈ diffToPrettyString diffs indent) : nonblank t = true := by
  unfold diffToPrettyString at h
  rw [List.mem_flatMap] at h
  obtain ⟨pr, hpr, hc⟩ := h
  exact styled_mem_runChunks hc


/-- Claim C4: the rendering policy of the text content differ with context
budget `C = contextLines = 2`.  Blank lines are never emitted in any run; a
first Equal run with more than `C+1` non-blank lines emits `...` then its
last `C` non-blank lines; a last (and not first) Equal run with more than
`C+1` non-blank lines emits its first `C` non-blank lines then `...`; an
interior Equal run with more than `2C+1` non-blank lines emits its first `C`
lines, `...`, and its last `C` lines; every other Equal run emits all its
non-blank lines; Inserted and Deleted runs emit every non-blank line
Create-tagged and Delete-tagged respectively. -/
theorem C4_text_diff_windowing :
    (∀ (diffs : List LineDiff) (indent : Nat) (op : StepOp) (i : Nat) (p : Bool) (t : String),
      Chunk.styled op i p t ∈ diffToPrettyString diffs indent → nonblank t = true) ∧
    (∀ (n indent idx : Nat) (t : String),
      runChunks n indent idx ⟨.insert, t⟩ = emitAll .create indent (nonblankLines t)) ∧
    (∀ (n indent idx : Nat) (t : String),
      runChunks n indent idx ⟨.delete, t⟩ = emitAll .delete indent (nonblankLines t)) ∧
    (∀ (n indent : Nat) (t : String), contextLines + 1 < (nonblankLines t).length →
      runChunks n indent 0 ⟨.equal, t⟩ =
        writeDiffChunk .same indent "...\n" ::
          emitAll .same indent ((nonblankLines t).drop ((nonblankLines t).length - contextLines))) ∧
    (∀ (n indent idx : Nat) (t : String), idx = n - 1 → idx ≠ 0 →
      contextLines + 1 < (nonblankLines t).length →
      runChunks n indent idx ⟨.equal, t⟩ =
        emitAll .same indent ((nonblankLines t).take contextLines) ++
          [writeDiffChunk .same indent "...\n"]) ∧
    (∀ (n indent idx : Nat) (t : String), idx ≠ 0 → idx ≠ n - 1 →
      2 * contextLines + 1 < (nonblankLines t).length →
      runChunks n indent idx ⟨.equal, t⟩ =
        emitAll .same indent ((nonblankLines t).take contextLines) ++
          writeDiffChunk .same indent "...\n" ::
          emitAll .same indent ((nonblankLines t).drop ((nonblankLines t).length - contextLines))) ∧
    (∀ (n indent idx : Nat) (t : String),
      (idx = 0 → (nonblankLines t).length ≤ contextLines + 1) →
      (idx = n - 1 → idx ≠ 0 → (nonblankLines t).length ≤ contextLines + 1) →
      (idx ≠ 0 → idx ≠ n - 1 → (nonblankLines t).length ≤ 2 * contextLines + 1) →
      runChunks n indent idx ⟨.equal, t⟩ = emitAll .same indent (nonblankLines t)) := by
  refine ⟨?_, ?_, ?_, ?_, ?_, ?_, ?_⟩
  · intro diffs indent op i p t h
    exact styled_mem_diffToPrettyString h
  · exact runChunks_insert
  · exact runChunks_delete
  · exact runChunks_equal_first
  · exact runChunks_equal_last
  · exact runChunks_equal_interior
  · exact runChunks_equal_short

/-- Witness for C4: the windowing policy evaluated on concrete runs (a
first, a last, an interior and a short Equal run, and an Inserted run with a
blank line). -/
theorem C4_witness :
    nonblank "new line" = true ∧
    runChunks 2 1 0 ⟨.equal, "a\nb\nc\nd"⟩ =
      [writeDiffChunk .same 1 "...\n",
       writeDiffChunk .same 1 "c", Chunk.raw "\n",
       writeDiffChunk .same 1 "d", Chunk.raw "\n"] ∧
    runChunks 2 1 1 ⟨.equal, "a\nb\nc\nd"⟩ =
      [writeDiffChunk .same 1 "a", Chunk.raw "\n",
       writeDiffChunk .same 1 "b", Chunk.raw "\n",
       writeDiffChunk .same 1 "...\n"] ∧
    runChunks 3 1 1 ⟨.equal, "a\nb\nc\nd\ne\nf"⟩ =
      [writeDiffChunk .same 1 "a", Chunk.raw "\n",
       writeDiffChunk .same 1 "b", Chunk.raw "\n",
       writeDiffChunk .same 1 "...\n",
       writeDiffChunk .same 1 "e", Chunk.raw "\n",
       writeDiffChunk .same 1 "f", Chunk.raw "\n"] ∧
    runChunks 5 1 2 ⟨.equal, "a\nb\nc"⟩ =
      [writeDiffChunk .same 1 "a", Chunk.raw "\n",
       writeDiffChunk .same 1 "b", Chunk.raw "\n",
       writeDiffChunk .same 1 "c", Chunk.raw "\n"] ∧
    runChunks 9 9 4 ⟨.insert, "x\n \ny"⟩ =
      [writeDiffChunk .create 9 "x", Chunk.raw "\n",
       writeDiffChunk .create 9 "y", Chunk.raw "\n"] := by
  refine ⟨?_, ?_, ?_, ?_, ?_, ?_⟩
  · exact C4_text_diff_windowing.1 [⟨.insert, "new line\n"⟩] 3 .create 3 true "new line"
      (by decide)
  · rw [C4_text_diff_windowing.2.2.2.1 2 1 "a\nb\nc\nd" (by decide)]
    decide
  · rw [C4_text_diff_windowing.2.2.2.2.1 2 1 1 "a\nb\nc\nd" (by decide) (by decide) (by decide)]
    decide
  · rw [C4_text_diff_windowing.2.2.2.2.2.1 3 1 1 "a\nb\nc\nd\ne\nf" (by decide) (by decide)
      (by decide)]
    decide
  · rw [C4_text_diff_windowing.2.2.2.2.2.2 5 1 2 "a\nb\nc" (by decide) (by decide) (by decide)]
    decide
  · rw [C4_text_diff_windowing.2.1 9 9 4 "x\n \ny"]
    decide


/-! ## Claim C5 — sorted-name merge diff -/

theorem mergeActions_name_mem :
    ∀ (olds news : List String) (act : MergeAction),
      act ∈ mergeActions olds news → act.name ∈ olds ∨ act.name ∈ news := by
  intro olds news
  induction olds, news using mergeActions.induct with
  | case1 =>
    intro act h
    rw [mergeActions] at h
    simp at h
  | case2 os n ns ih =>
    intro act h
    rw [mergeActions, if_pos rfl] at h
    rcases List.mem_cons.mp h with hc | hc
    · subst hc
      simp [MergeAction.name]
    · rcases ih act hc with h' | h' <;> simp [h']
  | case3 o os n ns hne hlt ih =>
    intro act h
    rw [mergeActions, if_neg hne, if_pos hlt] at h
    rcases List.mem_cons.mp h with hc | hc
    · subst hc
      simp [MergeAction.name]
    · rcases ih act hc with h' | h'
      · exact Or.inl (List.mem_cons.mpr (Or.inr h'))
      · exact Or.inr h'
  | case4 o os n ns hne hnlt ih =>
    intro act h
    rw [mergeActions, if_neg hne, if_neg hnlt] at h
    rcases List.mem_cons.mp h with hc | hc
    · subst hc
      simp [MergeAction.name]
    · rcases ih act hc with h' | h'
      · exact Or.inl h'
      · exact Or.inr (List.mem_cons.mpr (Or.inr h'))
  | case5 o os ih =>
    intro act h
    rw [mergeActions] at h
    rcases List.mem_cons.mp h with hc | hc
    · subst hc
      simp [MergeAction.name]
    · rcases ih act hc with h' | h'
      · exact Or.inl (List.mem_cons.mpr (Or.inr h'))
      · exact Or.inr h'
  | case6 n ns ih =>
    intro act h
    rw [mergeActions] at h
    rcases List.mem_cons.mp h with hc | hc
    · subst hc
      simp [MergeAction.name]
    · rcases ih act hc with h' | h'
      · exact Or.inl h'
      · exact Or.inr (List.mem_cons.mpr (Or.inr h'))

theorem mergeActions_sorted :
    ∀ (olds news : List String), olds.Sorted (· < ·) → news.Sorted (· < ·) →
      ((mergeActions olds news).map MergeAction.name).Sorted (· < ·) := by
  intro olds news
  induction olds, news using mergeActions.induct with
  | case1 =>
    intro _ _
    rw [mergeActions]
    simp
  | case2 os n ns ih =>
    intro ho hn
    rw [List.sorted_cons] at ho hn
    rw [mergeActions, if_pos rfl]
    rw [List.map_cons, List.sorted_cons]
    refine ⟨?_, ih ho.2 hn.2⟩
    intro b hb
    rw [List.mem_map] at hb
    obtain ⟨act, hact, hname⟩ := hb
    subst hname
    rcases mergeActions_name_mem os ns act hact with h' | h'
    · exact ho.1 _ h'
    · exact hn.1 _ h'
  | case3 o os n ns hne hlt ih =>
    intro ho hn
    rw [List.sorted_cons] at ho
    rw [mergeActions, if_neg hne, if_pos hlt]
    rw [List.map_cons, List.sorted_cons]
    refine ⟨?_, ih ho.2 hn⟩
    intro b hb
    rw [List.mem_map] at hb
    obtain ⟨act, hact, hname⟩ := hb
    subst hname
    rcases mergeActions_name_mem os (n :: ns) act hact with h' | h'
    · exact ho.1 _ h'
    · rcases List.mem_cons.mp h' with h'' | h''
      · rw [h'']
        exact hlt
      · exact lt_trans hlt ((List.sorted_cons.mp hn).1 _ h'')
  | case4 o os n ns hne hnlt ih =>
    intro ho hn
    have hno : n < o := lt_of_le_of_ne (not_lt.mp hnlt) (fun h => hne h.symm)
    rw [List.sorted_cons] at hn
    rw [mergeActions, if_neg hne, if_neg hnlt]
    rw [List.map_cons, List.sorted_cons]
    refine ⟨?_, ih ho hn.2⟩
    intro b hb
    rw [List.mem_map] at hb
    obtain ⟨act, hact, hname⟩ := hb
    subst hname
    rcases mergeActions_name_mem (o :: os) ns act hact with h' | h'
    · rcases List.mem_cons.mp h' with h'' | h''
      · rw [h'']
        exact hno
      · exact lt_trans hno ((List.sorted_cons.mp ho).1 _ h'')
    · exact hn.1 _ h'
  | case5 o os ih =>
    intro ho hn
    rw [List.sorted_cons] at ho
    rw [mergeActions]
    rw [List.map_cons, List.sorted_cons]
    refine ⟨?_, ih ho.2 hn⟩
    intro b hb
    rw [List.mem_map] at hb
    obtain ⟨act, hact, hname⟩ := hb
    subst hname
    rcases mergeActions_name_mem os [] act hact with h' | h'
    · exact ho.1 _ h'
    · simp at h'
  | case6 n ns ih =>
    intro ho hn
    rw [List.sorted_cons] at hn
    rw [mergeActions]
    rw [List.map_cons, List.sorted_cons]
    refine ⟨?_, ih ho hn.2⟩
    intro b hb
    rw [List.mem_map] at hb
    obtain ⟨act, hact, hname⟩ := hb
    subst hname
    rcases mergeActions_name_mem [] ns act hact with h' | h'
    · simp at h'
    · exact hn.1 _ h'

theorem mergeActions_classify :
    ∀ (olds news : List String), olds.Sorted (· < ·) → news.Sorted (· < ·) →
      ∀ s : String,
        (MergeAction.del s ∈ mergeActions olds news ↔ s ∈ olds ∧ s ∉ news) ∧
        (MergeAction.upd s ∈ mergeActions olds news ↔ s ∈ olds ∧ s ∈ news) ∧
        (MergeAction.add s ∈ mergeActions olds news ↔ s ∈ news ∧ s ∉ olds) := by
  intro olds news
  induction olds, news using mergeActions.induct with
  | case1 =>
    intro _ _ s
    rw [mergeActions]
    simp
  | case2 os n ns ih =>
    intro ho hn s
    rw [List.sorted_cons] at ho hn
    have ihs := ih ho.2 hn.2 s
    have hso : s ∈ os → s = n → False := fun hmem heq =>
      absurd (ho.1 s hmem) (by rw [heq]; exact lt_irrefl n)
    have hsn : s ∈ ns → s = n → False := fun hmem heq =>
      absurd (hn.1 s hmem) (by rw [heq]; exact lt_irrefl n)
    rw [mergeActions, if_pos rfl]
    simp only [List.mem_cons]
    rw [ihs.1, ihs.2.1, ihs.2.2]
    simp only [List.mem_cons, MergeAction.upd.injEq, false_or, reduceCtorEq]
    refine ⟨⟨fun h => ⟨Or.inr h.1, fun hc => hc.elim (hso h.1) h.2⟩, ?_⟩, ⟨?_, ?_⟩, ?_⟩
    · rintro ⟨h1, h2⟩
      rcases h1 with he | ha
      · exact absurd (Or.inl he) h2
      · exact ⟨ha, fun hb => h2 (Or.inr hb)⟩
    · rintro (he | ⟨ha, hb⟩)
      · exact ⟨Or.inl he, Or.inl he⟩
      · exact ⟨Or.inr ha, Or.inr hb⟩
    · rintro ⟨h1, h2⟩
      rcases h1 with he | ha
      · exact Or.inl he
      · rcases h2 with he | hb
        · exact (hso ha he).elim
        · exact Or.inr ⟨ha, hb⟩
    · constructor
      · rintro ⟨hb, ha⟩
        exact ⟨Or.inr hb, fun hc => hc.elim (hsn hb) ha⟩
      · rintro ⟨h1, h2⟩
        rcases h1 with he | hb
        · exact absurd (Or.inl he) h2
        · exact ⟨hb, fun ha => h2 (Or.inr ha)⟩
  | case3 o os n ns hne hlt ih =>
    intro ho hn s
    rw [List.sorted_cons] at ho
    have ihs := ih ho.2 hn s
    have hn2 := List.sorted_cons.mp hn
    have hons : o ∈ ns → False := fun hmem =>
      absurd (hn2.1 o hmem) (not_lt.mpr (le_of_lt hlt))
    have hso_n : s = o → s = n → False := fun h1 h2 => hne (h1.symm.trans h2)
    have hso_ns : s = o → s ∈ ns → False := fun h1 h2 => hons (h1 ▸ h2)
    rw [mergeActions, if_neg hne, if_pos hlt]
    simp only [List.mem_cons]
    rw [ihs.1, ihs.2.1, ihs.2.2]
    simp only [List.mem_cons, MergeAction.del.injEq, false_or, reduceCtorEq]
    refine ⟨⟨?_, ?_⟩, ⟨?_, ?_⟩, ?_⟩
    · rintro (he | ⟨ha, h2⟩)
      · exact ⟨Or.inl he, fun hc => hc.elim (hso_n he) (hso_ns he)⟩
      · exact ⟨Or.inr ha, h2⟩
    · rintro ⟨h1, h2⟩
      rcases h1 with he | ha
      · exact Or.inl he
      · exact Or.inr ⟨ha, h2⟩
    · rintro ⟨ha, h2⟩
      exact ⟨Or.inr ha, h2⟩
    · rintro ⟨h1, h2⟩
      rcases h1 with he | ha
      · exact (h2.elim (hso_n he) (hso_ns he)).elim
      · exact ⟨ha, h2⟩
    · constructor
      · rintro ⟨h1, h2⟩
        refine ⟨h1, fun hc => ?_⟩
        rcases hc with he | ha
        · exact h1.elim (hso_n he) (hso_ns he)
        · exact h2 ha
      · rintro ⟨h1, h2⟩
        exact ⟨h1, fun ha => h2 (Or.inr ha)⟩
  | case4 o os n ns hne hnlt ih =>
    intro ho hn s
    rw [List.sorted_cons] at hn
    have ihs := ih ho hn.2 s
    have hno : n < o := lt_of_le_of_ne (not_lt.mp hnlt) (fun h => hne h.symm)
    have ho2 := List.sorted_cons.mp ho
    have hnos : n ∈ os → False := fun hmem =>
      absurd (ho2.1 n hmem) (not_lt.mpr (le_of_lt hno))
    have hsn_o : s = n → s = o → False := fun h1 h2 => hne (h2.symm.trans h1)
    have hsn_os : s = n → s ∈ os → False := fun h1 h2 => hnos (h1 ▸ h2)
    rw [mergeActions, if_neg hne, if_neg hnlt]
    simp only [List.mem_cons]
    rw [ihs.1, ihs.2.1, ihs.2.2]
    simp only [List.mem_cons, MergeAction.add.injEq, false_or, reduceCtorEq]
    refine ⟨⟨?_, ?_⟩, ⟨?_, ?_⟩, ⟨?_, ?_⟩⟩
    · rintro ⟨h1, h2⟩
      refine ⟨h1, fun hc => ?_⟩
      rcases hc with he | hb
      · exact h1.elim (hsn_o he) (hsn_os he)
      · exact h2 hb
    · rintro ⟨h1, h2⟩
      exact ⟨h1, fun hb => h2 (Or.inr hb)⟩
    · rintro ⟨h1, h2⟩
      exact ⟨h1, Or.inr h2⟩
    · rintro ⟨h1, h2⟩
      rcases h2 with he | hb
      · exact (h1.elim (hsn_o he) (hsn_os he)).elim
      · exact ⟨h1, hb⟩
    · rintro (he | ⟨hb, h2⟩)
      · exact ⟨Or.inl he, fun hc => hc.elim (hsn_o he) (hsn_os he)⟩
      · exact ⟨Or.inr hb, h2⟩
    · rintro ⟨h1, h2⟩
      rcases h1 with he | hb
      · exact Or.inl he
      · exact Or.inr ⟨hb, h2⟩
  | case5 o os ih =>
    intro ho hn s
    rw [List.sorted_cons] at ho
    have ihs := ih ho.2 hn s
    rw [mergeActions]
    simp only [List.mem_cons]
    rw [ihs.1, ihs.2.1, ihs.2.2]
    simp only [List.mem_cons, MergeAction.del.injEq, List.not_mem_nil, not_false_iff,
      and_true, false_and, and_false, or_false, false_or, reduceCtorEq]
  | case6 n ns ih =>
    intro ho hn s
    rw [List.sorted_cons] at hn
    have ihs := ih ho hn.2 s
    rw [mergeActions]
    simp only [List.mem_cons]
    rw [ihs.1, ihs.2.1, ihs.2.2]
    simp only [List.mem_cons, MergeAction.add.injEq, List.not_mem_nil, not_false_iff,
      and_true, false_and, and_false, or_false, false_or, reduceCtorEq]

theorem clt_ab : (['a'] : List Char) < ['b'] := by decide

theorem clt_ad : (['a'] : List Char) < ['d'] := by decide

theorem clt_bd : (['b'] : List Char) < ['d'] := by decide

theorem clt_bc : (['b'] : List Char) < ['c'] := by decide

theorem clt_cd : (['c'] : List Char) < ['d'] := by decide

theorem cnlt_dc : ¬ (['d'] : List Char) < ['c'] := by decide

/-- The sorted-merge loop evaluated on the spec's canonical example: old
entries `a, b, d` against new entries `b, c, d`, where `b` and `d` changed
content hash. -/
theorem printAssetsDiff_concrete :
    printAssetsDiff (fun a _ => a) (fun _ _ => [])
      [("a", Sum.inl (Asset.file "a.txt" "h1")),
       ("b", Sum.inl (Asset.file "b.txt" "h2")),
       ("d", Sum.inl (Asset.file "d.txt" "h4"))]
      [("b", Sum.inl (Asset.file "b.txt" "h2x")),
       ("c", Sum.inl (Asset.file "c.txt" "h3")),
       ("d", Sum.inl (Asset.file "d.txt" "h4x"))]
      false 1 false false =
      some [Chunk.styled .delete 1 true "\"a\": ",
            Chunk.styled .delete 0 false "asset(file:h1) \x7b a.txt \x7d",
            Chunk.styled .delete 0 false "\n",
            Chunk.styled .update 1 true "\"b\": ",
            Chunk.styled .update 0 false "asset(file:h2->h2x) \x7b b.txt \x7d\n",
            Chunk.styled .create 1 true "\"c\": ",
            Chunk.styled .create 0 false "asset(file:h3) \x7b c.txt \x7d",
            Chunk.styled .create 0 false "\n",
            Chunk.styled .update 1 true "\"d\": ",
            Chunk.styled .update 0 false "asset(file:h4->h4x) \x7b d.txt \x7d\n"] := by
  simp [printAssetsDiff, assetsDiffLoop, assetsEntryDiff, sortByKey, insertSorted, printAssetDiff,
    printDelete, printAdd, printPropertyValue, printPropertyTitle, padKey, maxKey, spaces,
    assetOrArchiveToPropertyValue, Asset.hash, getTextChangeString, shortHash,
    clt_ab, clt_ad, clt_bd, clt_bc, clt_cd, cnlt_dc]
  decide

/-- Claim C5: the sorted-name merge diff emits entries in strictly
lexicographic name order with deletions, updates and additions interleaved
by name.  Over sorted name lists, the emitted names of the merge skeleton
are strictly increasing; a deletion is emitted exactly for old-side-only
names, an update exactly for common names (where the loop recurses and both
pointers advance), an addition exactly for new-side-only names; and on old
entries `a, b, d` versus new entries `b, c, d` (with `b` and `d` changed)
the output order is delete(a), update(b), add(c), update(d). -/
theorem C5_sorted_merge :
    (∀ (olds news : List String), olds.Sorted (· < ·) → news.Sorted (· < ·) →
      ((mergeActions olds news).map MergeAction.name).Sorted (· < ·)) ∧
    (∀ (olds news : List String), olds.Sorted (· < ·) → news.Sorted (· < ·) →
      ∀ s : String,
        (MergeAction.del s ∈ mergeActions olds news ↔ s ∈ olds ∧ s ∉ news) ∧
        (MergeAction.upd s ∈ mergeActions olds news ↔ s ∈ olds ∧ s ∈ news) ∧
        (MergeAction.add s ∈ mergeActions olds news ↔ s ∈ news ∧ s ∉ olds)) ∧
    mergeActions ["a", "b", "d"] ["b", "c", "d"] =
      [.del "a", .upd "b", .add "c", .upd "d"] ∧
    printAssetsDiff (fun a _ => a) (fun _ _ => [])
      [("a", Sum.inl (Asset.file "a.txt" "h1")),
       ("b", Sum.inl (Asset.file "b.txt" "h2")),
       ("d", Sum.inl (Asset.file "d.txt" "h4"))]
      [("b", Sum.inl (Asset.file "b.txt" "h2x")),
       ("c", Sum.inl (Asset.file "c.txt" "h3")),
       ("d", Sum.inl (Asset.file "d.txt" "h4x"))]
      false 1 false false =
      some [Chunk.styled .delete 1 true "\"a\": ",
            Chunk.styled .delete 0 false "asset(file:h1) \x7b a.txt \x7d",
            Chunk.styled .delete 0 false "\n",
            Chunk.styled .update 1 true "\"b\": ",
            Chunk.styled .update 0 false "asset(file:h2->h2x) \x7b b.txt \x7d\n",
            Chunk.styled .create 1 true "\"c\": ",
            Chunk.styled .create 0 false "asset(file:h3) \x7b c.txt \x7d",
            Chunk.styled .create 0 false "\n",
            Chunk.styled .update 1 true "\"d\": ",
            Chunk.styled .update 0 false "asset(file:h4->h4x) \x7b d.txt \x7d\n"] := by
  refine ⟨mergeActions_sorted, mergeActions_classify, ?_, printAssetsDiff_concrete⟩
  simp [mergeActions]
  decide

/-- Witness for C5's universally quantified parts at the concrete sorted
name lists of the example. -/
theorem C5_witness :
    ((mergeActions ["a", "b", "d"] ["b", "c", "d"]).map MergeAction.name).Sorted (· < ·) ∧
    (MergeAction.del "a" ∈ mergeActions ["a", "b", "d"] ["b", "c", "d"] ↔
      "a" ∈ ["a", "b", "d"] ∧ "a" ∉ ["b", "c", "d"]) := by
  have hso : (["a", "b", "d"] : List String).Sorted (· < ·) := by
    simp [List.sorted_cons]
    exact ⟨⟨clt_ab, clt_ad⟩, clt_bd⟩
  have hsn : (["b", "c", "d"] : List String).Sorted (· < ·) := by
    simp [List.sorted_cons]
    exact ⟨⟨clt_bc, clt_bd⟩, clt_cd⟩
  constructor
  · exact C5_sorted_merge.1 ["a", "b", "d"] ["b", "c", "d"] hso hsn
  · exact (C5_sorted_merge.2.1 ["a", "b", "d"] ["b", "c", "d"] hso hsn "a").1

end PulumiDiff
